import Mathlib

/-!
The spreadsheet facade of mt5-to-excel-dll.

A shallow embedding of the two facade implementations of the repository,
`mt5Excel/ExcelHandler.cpp` and `xlnt_excell_dll/Source.cpp`, each exporting
`WriteToXlsx`, `ReadRowCount` and `ReadRow`, and of the helper `SplitString`
they share.

* `std::string` is a list of characters (`Str`).
* `std::istringstream` and `std::getline` are modelled by their stream state.
* The spreadsheet engine is modelled by a workbook of named sheets, each a
  finite cell map; the file system maps a path to the workbook stored there.
* The caller's output buffer is observed through the bytes a call stores
  into it, from `result[0]` on.
-/

set_option autoImplicit false

/-- A `std::string`: a sequence of characters. -/
abbrev Str := List Char

/-- The string terminator. -/
def NUL : Char := Char.ofNat 0

/-- The fixed separator. -/
def SEP : Char := ','

/-! ## `static_cast` between the integer types the source uses -/

/-- The cast `static_cast<int>(n)` of an unsigned value: the low 32 bits, read as two's complement. -/
def toInt32 (n : Nat) : Int := ((n + 2 ^ 31) % 2 ^ 32 : Nat) - 2 ^ 31

/-- The cast `static_cast<std::uint32_t>(n)`, and arithmetic on `row_t`: the low 32 bits. -/
def toUInt32 (n : Nat) : Nat := n % 2 ^ 32

/-! ## `std::istringstream` and `std::getline` -/

/-- State of a `std::istringstream`: the characters not yet extracted and the two state bits
a `getline` loop depends on. -/
structure istringstream where
  buf : Str
  eofbit : Bool
  failbit : Bool
deriving DecidableEq, Repr

/-- Extraction performed by `getline`: characters are moved to the token until the
delimiter is met (it is extracted and dropped; the rest of the input is returned) or the input
ends (no rest is returned). -/
def extractUntil (delim : Char) : Str → Str × Option Str
  | [] => ([], none)
  | c :: cs =>
    if c = delim then ([], some cs)
    else ((c :: (extractUntil delim cs).1), (extractUntil delim cs).2)

/-- The call `std::getline(stream, token, delim)`. When the stream is not good the call only sets
`failbit` and leaves the token alone. Otherwise the token is erased and refilled; reaching the
end of input sets `eofbit`, and `failbit` is set as well when nothing at all was extracted. -/
def getline (stream : istringstream) (token : Str) (delim : Char) : istringstream × Str :=
  if stream.eofbit || stream.failbit then
    ({ stream with failbit := true }, token)
  else
    match extractUntil delim stream.buf with
    | (tok, some rest) => ({ stream with buf := rest }, tok)
    | (tok, none) => ({ buf := [], eofbit := true, failbit := tok.isEmpty }, tok)

/-- The loop `while (std::getline(stream, token, ',')) tokens.push_back(token);` of
`SplitString`, run for at most `fuel` iterations. -/
def SplitString.loop : Nat → istringstream → Str → List Str → List Str
  | 0, _, _, tokens => tokens
  | fuel + 1, stream, token, tokens =>
    if (getline stream token SEP).1.failbit then tokens
    else SplitString.loop fuel (getline stream token SEP).1 (getline stream token SEP).2
      (tokens ++ [(getline stream token SEP).2])

/-- The function `SplitString` (identical in both source files). Every iteration but the last extracts
at least one character or reaches the end of input, so `str.length + 2` iterations are never
used up (`SplitString_loop_fuel`). -/
def SplitString (str : Str) : List Str :=
  SplitString.loop (str.length + 2) { buf := str, eofbit := false, failbit := false } [] []

/-- The tokens a `getline` loop yields, by recursion on the text: a separator closes a
field, and the end of input closes a field only when the field is not empty. -/
def fieldsOf : Str → List Str
  | [] => []
  | c :: cs =>
    if c = SEP then [] :: fieldsOf cs
    else
      match fieldsOf cs with
      | [] => [[c]]
      | t :: ts => (c :: t) :: ts

/-- Number of separators in a text. -/
def separators (s : Str) : Nat := s.count SEP

/-- A text that is not empty and does not end in a separator. -/
def endsInField (s : Str) : Bool :=
  match s.getLast? with
  | none => false
  | some c => c != SEP

/-- The `join` of the spec: the fields with one separator between consecutive entries. -/
def joinFields : List Str → Str
  | [] => []
  | [f] => f
  | f :: g :: fs => f ++ SEP :: joinFields (g :: fs)

/-! ## The spreadsheet engine

The engine (the xlnt library) is an external collaborator of the facade. Its model follows
the collaborator interface of the specification and keeps what the facade can observe of it:
which cells a sheet stores, which of them hold a value, their text, and the highest row and
column among the stored cells. A workbook kept in the file system is always loadable, and the
engine accepts every sheet title and every reference whose column and row are not zero. -/

/-- A cell address `xlnt::cell_reference(column, row)`, both indices 1-based. -/
structure cell_reference where
  column : Nat
  row : Nat
deriving DecidableEq, Repr

/-- The reference `"A1"`. -/
def A1 : cell_reference := { column := 1, row := 1 }

/-- The constructor `xlnt::cell_reference(column, row)`: it throws `invalid_cell_reference`
when an index is zero. -/
def cell_reference.make (column row : Nat) : Option cell_reference :=
  if column = 0 ∨ row = 0 then none else some { column := column, row := row }

/-- A worksheet: its title and its cell map. A stored cell may hold no value (`none`), as a
cell does that was only ever accessed. -/
structure worksheet where
  title : Str
  cell_map : List (cell_reference × Option Str)
deriving DecidableEq, Repr

/-- The entry of the cell map at a reference, when the cell is stored. -/
def worksheet.lookup (ws : worksheet) (ref : cell_reference) : Option (Option Str) :=
  (ws.cell_map.find? (fun c => c.1 = ref)).map (fun c => c.2)

/-- The value held at a reference: `none` when the cell is not stored or stores no value. -/
def worksheet.value (ws : worksheet) (ref : cell_reference) : Option Str :=
  (ws.lookup ref).join

/-- The engine's `ws.cell(ref).has_value()`. -/
def worksheet.has_value (ws : worksheet) (ref : cell_reference) : Bool :=
  (ws.value ref).isSome

/-- The engine's `ws.cell(ref).to_string()` and `ws.cell(ref).value<std::string>()`: the text
of the cell, empty for a cell without a value. -/
def worksheet.to_string (ws : worksheet) (ref : cell_reference) : Str :=
  (ws.value ref).getD []

/-- The accessor `ws.cell(ref)` stores an empty cell at the reference when none is stored. -/
def worksheet.cell (ws : worksheet) (ref : cell_reference) : worksheet :=
  match ws.lookup ref with
  | some _ => ws
  | none => { ws with cell_map := (ref, none) :: ws.cell_map }

/-- The engine's `ws.cell(ref).value(text)`: the cell at the reference now holds the text. -/
def worksheet.set_value (ws : worksheet) (ref : cell_reference) (text : Str) : worksheet :=
  { ws with cell_map := (ref, some text) :: ws.cell_map.filter (fun c => c.1 ≠ ref) }

/-- The engine's `ws.highest_row()`: the greatest row of a stored cell, and 1 for a sheet
with no cells. -/
def worksheet.highest_row (ws : worksheet) : Nat :=
  (ws.cell_map.map (fun c => c.1.row)).foldr max 1

/-- The engine's `ws.highest_column().index`: the greatest column of a stored cell, and 1
for a sheet with no cells. -/
def worksheet.highest_column (ws : worksheet) : Nat :=
  (ws.cell_map.map (fun c => c.1.column)).foldr max 1

/-- A workbook: its sheets in order. -/
structure workbook where
  sheets : List worksheet
deriving DecidableEq, Repr

/-- The default-constructed `xlnt::workbook`: one sheet titled `Sheet1`, with no cells. -/
def workbook.new : workbook :=
  { sheets := [{ title := ['S', 'h', 'e', 'e', 't', '1'], cell_map := [] }] }

/-- The engine's `wb.sheet_titles()`. -/
def workbook.sheet_titles (wb : workbook) : List Str := wb.sheets.map (fun ws => ws.title)

/-- The engine's `wb.contains(title)`. -/
def workbook.contains (wb : workbook) (title : Str) : Bool :=
  wb.sheets.any (fun ws => ws.title = title)

/-- The engine's `wb.sheet_by_title(title)`; it throws `key_not_found` (`none`) when no sheet
has the title. -/
def workbook.sheet_by_title (wb : workbook) (title : Str) : Option worksheet :=
  wb.sheets.find? (fun ws => ws.title = title)

/-- The engine's `wb.create_sheet()` followed by `ws.title(title)`, or `wb.create_sheet(title)`:
a new sheet with no cells and the given title, after the existing sheets. -/
def workbook.create_sheet (wb : workbook) (title : Str) : workbook :=
  { sheets := wb.sheets ++ [{ title := title, cell_map := [] }] }

/-- Replace the first sheet of a list that has the title of `ws` by `ws`. -/
def replaceSheet (ws : worksheet) : List worksheet → List worksheet
  | [] => []
  | s :: rest => if s.title = ws.title then ws :: rest else s :: replaceSheet ws rest

/-- A worksheet is a handle into its workbook: what is done to the sheet is done to the
workbook's sheet of that title. -/
def workbook.update (wb : workbook) (ws : worksheet) : workbook :=
  { sheets := replaceSheet ws wb.sheets }

/-- The documents on disk: the workbook stored at each path, `none` where no file exists. -/
abbrev FileSystem := Str → Option workbook

/-- The engine's `wb.save(path)`. -/
def FileSystem.save (fs : FileSystem) (path : Str) (wb : workbook) : FileSystem :=
  fun p => if p = path then some wb else fs p

/-- The workbook `WriteToXlsx` starts from: the one stored at the path, or a new one. -/
def loadOrNew (fs : FileSystem) (path : Str) : workbook :=
  match fs path with
  | some loaded => loaded
  | none => workbook.new

/-- The sheet `WriteToXlsx` writes to, as it is before the call: the sheet of that title, or a
sheet with no cells when the workbook has none of that title. -/
def targetSheet (wb : workbook) (name : Str) : worksheet :=
  match wb.sheet_by_title name with
  | some ws => ws
  | none => { title := name, cell_map := [] }

/-- The workbook once the sheet of the given title has been created if it was missing. -/
def withSheet (wb : workbook) (name : Str) : workbook :=
  if wb.contains name then wb else wb.create_sheet name

/-- The output a failing `ReadRow` stores: `result[0] = 0` when there is a buffer with room
for it, nothing otherwise. -/
def emptyResult (result : Bool) (resultSize : Int) : List Char :=
  if result && decide (resultSize > 0) then [NUL] else []

/-! ## `mt5Excel/ExcelHandler.cpp` -/

namespace ExcelHandler

/-- The row cursor of `WriteToXlsx` (lines 132-141), of the sheet as it is once `"A1"` has
been accessed: `startRow = ws.highest_row()`, kept at 1 for a sheet taken to be empty and
incremented (in `row_t`, 32 bits) otherwise. -/
def startRow (ws : worksheet) : Nat :=
  if ((ws.cell A1).to_string A1).isEmpty && ws.highest_row == 1 then 1
  else toUInt32 (ws.highest_row + 1)

/-- The write loop (lines 150-153): field `i` goes to
`ws.cell(static_cast<std::uint32_t>(1 + i), startRow)`, the engine's accessor taking the column
first. A reference with a zero index throws. -/
def writeFields (startRow : Nat) : Nat → List Str → worksheet → Option worksheet
  | _, [], ws => some ws
  | i, f :: rest, ws =>
    match cell_reference.make (toUInt32 (1 + i)) startRow with
    | none => none
    | some ref => writeFields startRow (i + 1) rest (ws.set_value ref f)

/-- The export `WriteToXlsx(filename, sheetName, data)`: the returned flag and the file
system after the call. A null pointer (`none`) and an engine exception give `false` and leave
the files alone. -/
def WriteToXlsx (fs : FileSystem) (filename sheetName data : Option Str) : Bool × FileSystem :=
  match filename, sheetName, data with
  | some fileStr, some sheetStr, some dataStr =>
    let dataArray := SplitString dataStr
    let wb := match fs fileStr with
      | some loaded => loaded
      | none => workbook.new
    let sheetExists := wb.sheet_titles.any (fun title => title = sheetStr)
    let wb := if sheetExists then wb else wb.create_sheet sheetStr
    match wb.sheet_by_title sheetStr with
    | none => (false, fs)
    | some ws =>
      match writeFields (startRow ws) 0 dataArray (ws.cell A1) with
      | none => (false, fs)
      | some ws => (true, fs.save fileStr (wb.update ws))
  | _, _, _ => (false, fs)

/-- The export `ReadRowCount(filename, sheetName)`: the count returned, 0 on a null pointer
or an engine exception. -/
def ReadRowCount (fs : FileSystem) (filename sheetName : Option Str) : Int :=
  match filename, sheetName with
  | some fileStr, some sheetStr =>
    match fs fileStr with
    | none => 0
    | some wb =>
      if !(wb.sheet_titles.any (fun title => title = sheetStr)) then 0
      else
        match wb.sheet_by_title sheetStr with
        | none => 0
        | some ws =>
          if ((ws.cell A1).to_string A1).isEmpty && ws.highest_row == 1 then 0
          else toInt32 ws.highest_row
  | _, _ => 0

/-- The scan of lines 278-288: the last column in `1..highestColumnIndex` whose cell in the
row has a value, 0 when there is none. -/
def lastColumnWithData (ws : worksheet) (rowNumber highestColumnIndex : Nat) : Nat :=
  (List.range' 1 highestColumnIndex).foldl
    (fun last col => if ws.has_value { column := col, row := rowNumber } then col else last) 0

/-- The loop of lines 299-315 that builds the text of the row in `oss`. -/
def rowData (ws : worksheet) (rowNumber lastColumn : Nat) : Str :=
  (List.range' 1 lastColumn).foldl
    (fun oss col =>
      (if col > 1 then oss ++ [SEP] else oss) ++
        (if ws.has_value { column := col, row := rowNumber }
          then ws.to_string { column := col, row := rowNumber } else []))
    []

/-- The export `ReadRow(filename, sheetName, rowNumber, result, resultSize)`: the file system
after the call and the bytes stored into `result`, from `result[0]` on (`result` tells whether
the pointer is non-null). The workbook is loaded and never saved. -/
def ReadRow (fs : FileSystem) (filename sheetName : Option Str) (rowNumber : Int)
    (result : Bool) (resultSize : Int) : FileSystem × List Char :=
  match filename, sheetName, result with
  | some fileStr, some sheetStr, true =>
    match fs fileStr with
    | none => (fs, emptyResult result resultSize)
    | some wb =>
      if !(wb.contains sheetStr) then (fs, emptyResult result resultSize)
      else
        match wb.sheet_by_title sheetStr with
        | none => (fs, emptyResult result resultSize)
        | some ws =>
          if rowNumber < 1 ∨ rowNumber > toInt32 ws.highest_row then
            (fs, emptyResult result resultSize)
          else
            let lastColumn := lastColumnWithData ws rowNumber.toNat ws.highest_column
            if lastColumn = 0 then (fs, emptyResult result resultSize)
            else
              let text := rowData ws rowNumber.toNat lastColumn
              if toInt32 (text.length + 1) > resultSize then (fs, emptyResult result resultSize)
              else (fs, text ++ [NUL])
  | _, _, _ => (fs, emptyResult result resultSize)

/-- The text `ReadRow` builds for a row of a sheet. -/
def rowText (ws : worksheet) (rowNumber : Int) : Str :=
  rowData ws rowNumber.toNat (lastColumnWithData ws rowNumber.toNat ws.highest_column)

/-- Calling `WriteToXlsx` once for each record of a list, in order, on the same path and
sheet name: the file system after the last call. -/
def writeAll (fs : FileSystem) (path name : Str) : List Str → FileSystem
  | [] => fs
  | data :: rest => writeAll (WriteToXlsx fs (some path) (some name) (some data)).2 path name rest

end ExcelHandler

/-! ## `xlnt_excell_dll/Source.cpp` -/

namespace Source

/-- The write loop (lines 133-136): field `i` goes to
`xlnt::cell_reference(static_cast<unsigned>(i + 1), startRow)`. -/
def writeFields (startRow : Nat) : Nat → List Str → worksheet → Option worksheet
  | _, [], ws => some ws
  | i, f :: rest, ws =>
    match cell_reference.make (toUInt32 (i + 1)) startRow with
    | none => none
    | some ref => writeFields startRow (i + 1) rest (ws.set_value ref f)

/-- The export `WriteToXlsx(filename, sheetName, data)`: the record always goes to the row
after the highest one. -/
def WriteToXlsx (fs : FileSystem) (filename sheetName data : Option Str) : Bool × FileSystem :=
  match filename, sheetName, data with
  | some fileStr, some sheetStr, some dataStr =>
    let dataArray := SplitString dataStr
    let wb := match fs fileStr with
      | some loaded => loaded
      | none => workbook.new
    let wb := if wb.contains sheetStr then wb else wb.create_sheet sheetStr
    match wb.sheet_by_title sheetStr with
    | none => (false, fs)
    | some ws =>
      match writeFields (toUInt32 (ws.highest_row + 1)) 0 dataArray ws with
      | none => (false, fs)
      | some ws => (true, fs.save fileStr (wb.update ws))
  | _, _, _ => (false, fs)

/-- The export `ReadRowCount(filename, sheetName)`: the count returned, 0 on a null pointer
or an engine exception. -/
def ReadRowCount (fs : FileSystem) (filename sheetName : Option Str) : Int :=
  match filename, sheetName with
  | some fileStr, some sheetStr =>
    match fs fileStr with
    | none => 0
    | some wb =>
      if !(wb.contains sheetStr) then 0
      else
        match wb.sheet_by_title sheetStr with
        | none => 0
        | some ws => toInt32 ws.highest_row
  | _, _ => 0

/-- The loop of lines 255-266 that builds the text of the row over every column up to the
highest column of the sheet. -/
def rowData (ws : worksheet) (row highestCol : Nat) : Str :=
  ((List.range' 1 highestCol).foldl
    (fun (acc : Str × Bool) col =>
      ((if !acc.2 then acc.1 ++ [SEP] else acc.1) ++ ws.to_string { column := col, row := row },
        false))
    ([], true)).1

/-- The export `ReadRow(filename, sheetName, row, result, resultSize)`: the file system after
the call and the bytes stored into `result`, from `result[0]` on, or `none` when the call
faults. A null pointer (`none`, or `result = false`) throws at line 218; the handlers at lines
281-290 store to `result[0]` whenever `resultSize > 0`, with no test of the pointer, so with a
null `result` and `resultSize > 0` the store goes through the null pointer and the call
faults. -/
def ReadRow (fs : FileSystem) (filename sheetName : Option Str) (row : Int)
    (result : Bool) (resultSize : Int) : Option (FileSystem × List Char) :=
  match filename, sheetName, result with
  | some fileStr, some sheetStr, true =>
    match fs fileStr with
    | none => some (fs, emptyResult true resultSize)
    | some wb =>
      if !(wb.contains sheetStr) then some (fs, emptyResult true resultSize)
      else
        match wb.sheet_by_title sheetStr with
        | none => some (fs, emptyResult true resultSize)
        | some ws =>
          if row < 1 ∨ row > toInt32 ws.highest_row then some (fs, emptyResult true resultSize)
          else
            let text := rowData ws row.toNat ws.highest_column
            if toInt32 (text.length + 1) > resultSize then
              some (fs, emptyResult true resultSize)
            else some (fs, text ++ [NUL])
  | _, _, true => some (fs, emptyResult true resultSize)
  | _, _, false => if resultSize > 0 then none else some (fs, [])

/-- The text `ReadRow` builds for a row of a sheet. -/
def rowText (ws : worksheet) (row : Int) : Str :=
  rowData ws row.toNat ws.highest_column

end Source

/-- A file system with no file at all. -/
def noFiles : FileSystem := fun _ => none

/-! ## Repeated writes -/

/-- The rows `1..records.length` of a sheet hold the fields of the records, in order. -/
def holdsRecords (ws : worksheet) (records : List Str) : Prop :=
  ∀ i data, records[i]? = some data → ∀ j f, (SplitString data)[j]? = some f →
    ws.value { column := j + 1, row := i + 1 } = some f

/-- What holds after the records of a list have been written to a sheet that had no cells:
the sheet is there, its highest row is the number of records, the text of A1 is not empty, and
its rows hold the records. -/
def written (fs : FileSystem) (path name : Str) (records : List Str) : Prop :=
  ∃ wb ws, fs path = some wb ∧ wb.sheet_by_title name = some ws ∧
    ws.highest_row = records.length ∧ ws.to_string A1 ≠ [] ∧ holdsRecords ws records

/-! ## Example documents -/

/-- A sheet `s` with `a` in A1 and `b` in A2. -/
def sheetTwoRows : worksheet :=
  { title := ['s'],
    cell_map := [({ column := 1, row := 1 }, some ['a']), ({ column := 1, row := 2 }, some ['b'])] }

/-- A sheet `s` with `a` in A1, a stored cell without a value in B1, and `c` in C1. -/
def sheetGapRow : worksheet :=
  { title := ['s'],
    cell_map := [({ column := 1, row := 1 }, some ['a']), ({ column := 2, row := 1 }, none),
      ({ column := 3, row := 1 }, some ['c'])] }

/-- A sheet `s` whose only cell is B1, holding `b`. -/
def sheetOnlyB1 : worksheet :=
  { title := ['s'], cell_map := [({ column := 2, row := 1 }, some ['b'])] }

/-- A file system with one file `f`, holding the given sheet. -/
def oneFile (ws : worksheet) : FileSystem :=
  noFiles.save ['f'] { sheets := [ws] }

/-- The sheet of the given title in the document at the given path, when both exist. -/
def sheetAt (fs : FileSystem) (path name : Str) : Option worksheet :=
  (fs path).bind (fun wb => wb.sheet_by_title name)

/-- The value held at a reference of that sheet. -/
def cellAt (fs : FileSystem) (path name : Str) (ref : cell_reference) : Option Str :=
  (sheetAt fs path name).bind (fun ws => ws.value ref)

/-! ## `SplitString` -/

theorem fieldsOf_eq_nil (s : Str) : fieldsOf s = [] ↔ s = [] := by
  cases s with
  | nil => simp [fieldsOf]
  | cons c cs =>
    simp only [fieldsOf]
    split
    · simp
    · split <;> simp

theorem extractUntil_some (s t rest : Str) (h : extractUntil SEP s = (t, some rest)) :
    fieldsOf s = t :: fieldsOf rest ∧ rest.length < s.length := by
  induction s generalizing t with
  | nil => simp [extractUntil] at h
  | cons c cs ih =>
    simp only [extractUntil] at h
    by_cases hc : c = SEP
    · simp only [hc, if_true, Prod.mk.injEq, Option.some.injEq] at h
      obtain ⟨rfl, rfl⟩ := h
      simp [fieldsOf, hc]
    · simp only [hc, if_false, Prod.mk.injEq] at h
      obtain ⟨rfl, h2⟩ := h
      obtain ⟨h3, h4⟩ := ih (extractUntil SEP cs).1 (Prod.ext rfl h2)
      constructor
      · simp only [fieldsOf, hc, if_false, h3]
      · simp only [List.length_cons]; omega

theorem extractUntil_none (s t : Str) (h : extractUntil SEP s = (t, none)) :
    t = s ∧ fieldsOf s = if s = [] then [] else [s] := by
  induction s generalizing t with
  | nil =>
    simp only [extractUntil, Prod.mk.injEq] at h
    simp [h.1.symm, fieldsOf]
  | cons c cs ih =>
    simp only [extractUntil] at h
    by_cases hc : c = SEP
    · simp [hc] at h
    · simp only [hc, if_false, Prod.mk.injEq] at h
      obtain ⟨rfl, h2⟩ := h
      obtain ⟨h3, h4⟩ := ih (extractUntil SEP cs).1 (Prod.ext rfl h2)
      refine ⟨by rw [h3], ?_⟩
      simp only [fieldsOf, hc, if_false, h4]
      by_cases hcs : cs = []
      · simp [hcs]
      · simp [hcs]

/-- Once the end of input has been reached, the next `getline` fails and the loop stops. -/
theorem SplitString_loop_eof (fuel : Nat) (token : Str) (tokens : List Str) :
    SplitString.loop fuel { buf := [], eofbit := true, failbit := false } token tokens
      = tokens := by
  cases fuel with
  | zero => rfl
  | succ n => simp [SplitString.loop, getline]

/-- With `buf.length + 2` iterations or more, the loop stops on a failed `getline`, not on
the iteration bound, and has then collected the fields of the text. -/
theorem SplitString_loop_fuel (fuel : Nat) (buf token : Str) (tokens : List Str)
    (h : buf.length + 2 ≤ fuel) :
    SplitString.loop fuel { buf := buf, eofbit := false, failbit := false } token tokens
      = tokens ++ fieldsOf buf := by
  induction fuel generalizing buf token tokens with
  | zero => omega
  | succ n ih =>
    rcases hx : extractUntil SEP buf with ⟨t, _ | rest⟩
    · obtain ⟨rfl, h2⟩ := extractUntil_none buf t hx
      by_cases ht : t = []
      · subst ht
        simp [SplitString.loop, getline, hx, fieldsOf]
      · have hl : SplitString.loop (n + 1) { buf := t, eofbit := false, failbit := false }
            token tokens
            = SplitString.loop n { buf := [], eofbit := true, failbit := false } t
                (tokens ++ [t]) := by
          have he : t.isEmpty = false := by cases t <;> simp_all
          simp [SplitString.loop, getline, hx, he]
        rw [hl, SplitString_loop_eof, h2]
        simp [ht]
    · obtain ⟨h1, h2⟩ := extractUntil_some buf t rest hx
      have hl : SplitString.loop (n + 1) { buf := buf, eofbit := false, failbit := false }
          token tokens
          = SplitString.loop n { buf := rest, eofbit := false, failbit := false } t
              (tokens ++ [t]) := by
        simp [SplitString.loop, getline, hx]
      rw [hl, ih rest t (tokens ++ [t]) (by omega), h1]
      simp

/-- The function `SplitString` returns the fields of its argument. -/
theorem SplitString_eq_fieldsOf (str : Str) : SplitString str = fieldsOf str := by
  unfold SplitString
  rw [SplitString_loop_fuel _ _ _ _ (Nat.le_refl _)]
  simp

theorem endsInField_cons (c : Char) (cs : Str) (h : cs ≠ []) :
    endsInField (c :: cs) = endsInField cs := by
  unfold endsInField
  cases cs with
  | nil => exact absurd rfl h
  | cons d ds => simp [List.getLast?_cons_cons]

theorem fieldsOf_length (s : Str) :
    (fieldsOf s).length = separators s + (if endsInField s then 1 else 0) := by
  induction s with
  | nil => simp [fieldsOf, separators, endsInField]
  | cons c cs ih =>
    by_cases hcs : cs = []
    · subst hcs
      by_cases hc : c = SEP
      · simp [fieldsOf, separators, endsInField, hc]
      · have hcount : List.count SEP [c] = 0 :=
          List.count_eq_zero.2 (by simpa using fun h => hc h.symm)
        simp [fieldsOf, separators, endsInField, hc, hcount]
    · rw [endsInField_cons c cs hcs]
      by_cases hc : c = SEP
      · simp only [fieldsOf, hc, if_true, List.length_cons, ih, separators,
          List.count_cons_self]
        omega
      · have hne : fieldsOf cs ≠ [] := fun h => hcs ((fieldsOf_eq_nil cs).1 h)
        obtain ⟨t, ts, hts⟩ := List.exists_cons_of_ne_nil hne
        have hcount : separators (c :: cs) = separators cs := by
          unfold separators
          exact List.count_cons_of_ne (fun h => hc h.symm) cs
        rw [hcount, ← ih]
        simp only [fieldsOf, hc, if_false, hts, List.length_cons]

/-! ## The engine: cells, highest row and column -/

theorem toInt32_of_lt (n : Nat) (h : n < 2 ^ 31) : toInt32 n = n := by
  unfold toInt32
  have h1 : (n + 2 ^ 31) % 2 ^ 32 = n + 2 ^ 31 := Nat.mod_eq_of_lt (by omega)
  rw [h1]
  push_cast
  omega

theorem toInt32_le (n : Nat) : toInt32 n ≤ n := by
  unfold toInt32
  have h1 : (n + 2 ^ 31) % 2 ^ 32 ≤ n + 2 ^ 31 := Nat.mod_le _ _
  omega

theorem toUInt32_of_lt (n : Nat) (h : n < 2 ^ 32) : toUInt32 n = n :=
  Nat.mod_eq_of_lt h

theorem find_filter_ne (cells : List (cell_reference × Option Str)) (ref r : cell_reference)
    (h : r ≠ ref) :
    (cells.filter (fun c => c.1 ≠ ref)).find? (fun c => c.1 = r)
      = cells.find? (fun c => c.1 = r) := by
  induction cells with
  | nil => rfl
  | cons c cs ih =>
    by_cases hc : c.1 = ref
    · have hcr : ¬ c.1 = r := fun e => h (e.symm.trans hc)
      rw [List.filter_cons_of_neg (by simpa using hc), List.find?_cons_of_neg _ (by simpa using hcr)]
      exact ih
    · rw [List.filter_cons_of_pos (by simpa using hc)]
      by_cases hcr : c.1 = r
      · rw [List.find?_cons_of_pos _ (by simpa using hcr),
          List.find?_cons_of_pos _ (by simpa using hcr)]
      · rw [List.find?_cons_of_neg _ (by simpa using hcr),
          List.find?_cons_of_neg _ (by simpa using hcr)]
        exact ih

theorem lookup_set_value (ws : worksheet) (ref r : cell_reference) (text : Str) :
    (ws.set_value ref text).lookup r = if r = ref then some (some text) else ws.lookup r := by
  unfold worksheet.lookup worksheet.set_value
  by_cases h : r = ref
  · subst h; simp
  · have h' : ¬ ref = r := fun e => h e.symm
    rw [List.find?_cons_of_neg _ (by simpa using h'), find_filter_ne _ _ _ h, if_neg h]

theorem value_set_value (ws : worksheet) (ref r : cell_reference) (text : Str) :
    (ws.set_value ref text).value r = if r = ref then some text else ws.value r := by
  unfold worksheet.value
  rw [lookup_set_value]
  split <;> simp

theorem value_cell (ws : worksheet) (ref r : cell_reference) :
    (ws.cell ref).value r = ws.value r := by
  unfold worksheet.cell
  cases h : ws.lookup ref with
  | some v => rfl
  | none =>
    simp only [worksheet.value, worksheet.lookup, List.find?_cons]
    by_cases e : ref = r
    · subst e
      simp only [decide_True]
      simp only [worksheet.lookup] at h
      rw [h]
      rfl
    · simp [e]

theorem to_string_cell (ws : worksheet) (ref r : cell_reference) :
    (ws.cell ref).to_string r = ws.to_string r := by
  unfold worksheet.to_string
  rw [value_cell]

theorem one_le_foldr_max (l : List Nat) : 1 ≤ l.foldr max 1 := by
  induction l with
  | nil => simp
  | cons a l ih => simp only [List.foldr_cons]; omega

theorem le_foldr_max (l : List Nat) (a : Nat) (h : a ∈ l) : a ≤ l.foldr max 1 := by
  induction l with
  | nil => simp at h
  | cons b l ih =>
    simp only [List.foldr_cons]
    rcases List.mem_cons.1 h with rfl | h
    · omega
    · have := ih h
      omega

theorem foldr_max_filter (cells : List (cell_reference × Option Str)) (ref : cell_reference)
    (f : cell_reference → Nat) :
    max (f ref) (((cells.filter (fun c => c.1 ≠ ref)).map (fun c => f c.1)).foldr max 1)
      = max (f ref) ((cells.map (fun c => f c.1)).foldr max 1) := by
  induction cells with
  | nil => rfl
  | cons c cs ih =>
    by_cases hc : c.1 = ref
    · rw [List.filter_cons_of_neg (by simpa using hc), List.map_cons, List.foldr_cons, hc]
      omega
    · rw [List.filter_cons_of_pos (by simpa using hc), List.map_cons, List.foldr_cons,
        List.map_cons, List.foldr_cons]
      omega

theorem one_le_highest_row (ws : worksheet) : 1 ≤ ws.highest_row :=
  one_le_foldr_max _

theorem one_le_highest_column (ws : worksheet) : 1 ≤ ws.highest_column :=
  one_le_foldr_max _

theorem highest_row_set_value (ws : worksheet) (ref : cell_reference) (text : Str) :
    (ws.set_value ref text).highest_row = max ref.row ws.highest_row := by
  unfold worksheet.highest_row worksheet.set_value
  simp only [List.map_cons, List.foldr_cons]
  exact foldr_max_filter ws.cell_map ref (fun r => r.row)

theorem highest_column_set_value (ws : worksheet) (ref : cell_reference) (text : Str) :
    (ws.set_value ref text).highest_column = max ref.column ws.highest_column := by
  unfold worksheet.highest_column worksheet.set_value
  simp only [List.map_cons, List.foldr_cons]
  exact foldr_max_filter ws.cell_map ref (fun r => r.column)

theorem highest_row_cell_A1 (ws : worksheet) : (ws.cell A1).highest_row = ws.highest_row := by
  unfold worksheet.cell
  cases h : ws.lookup A1 with
  | some v => rfl
  | none =>
    have := one_le_highest_row ws
    simp only [worksheet.highest_row, List.map_cons, List.foldr_cons, A1] at this ⊢
    omega

theorem highest_column_cell_A1 (ws : worksheet) :
    (ws.cell A1).highest_column = ws.highest_column := by
  unfold worksheet.cell
  cases h : ws.lookup A1 with
  | some v => rfl
  | none =>
    have := one_le_highest_column ws
    simp only [worksheet.highest_column, List.map_cons, List.foldr_cons, A1] at this ⊢
    omega

theorem title_cell (ws : worksheet) (ref : cell_reference) : (ws.cell ref).title = ws.title := by
  unfold worksheet.cell
  cases ws.lookup ref <;> rfl

/-! ## The engine: workbooks -/

theorem sheet_titles_any (wb : workbook) (name : Str) :
    wb.sheet_titles.any (fun title => title = name) = wb.contains name := by
  unfold workbook.sheet_titles workbook.contains
  induction wb.sheets with
  | nil => rfl
  | cons a l ih => simp [List.any_cons, ih]

theorem contains_eq_isSome (wb : workbook) (name : Str) :
    wb.contains name = (wb.sheet_by_title name).isSome := by
  unfold workbook.contains workbook.sheet_by_title
  induction wb.sheets with
  | nil => rfl
  | cons a l ih =>
    by_cases h : a.title = name
    · rw [List.find?_cons_of_pos _ (by simpa using h), List.any_cons]
      simp [h]
    · rw [List.find?_cons_of_neg _ (by simpa using h), List.any_cons, ih]
      simp [h]

theorem sheet_by_title_title (wb : workbook) (name : Str) (ws : worksheet)
    (h : wb.sheet_by_title name = some ws) : ws.title = name := by
  unfold workbook.sheet_by_title at h
  simpa using List.find?_some h

theorem sheet_by_title_mem (wb : workbook) (name : Str) (ws : worksheet)
    (h : wb.sheet_by_title name = some ws) : ws ∈ wb.sheets :=
  List.mem_of_find?_eq_some h

theorem sheet_by_title_none (wb : workbook) (name : Str)
    (h : ∀ ws ∈ wb.sheets, ws.title ≠ name) : wb.sheet_by_title name = none := by
  unfold workbook.sheet_by_title
  rw [List.find?_eq_none]
  intro ws hws
  simpa using h ws hws

theorem targetSheet_title (wb : workbook) (name : Str) : (targetSheet wb name).title = name := by
  unfold targetSheet
  cases h : wb.sheet_by_title name with
  | none => rfl
  | some ws => exact sheet_by_title_title wb name ws h

theorem find_append_new (l : List worksheet) (name t : Str)
    (h : l.find? (fun ws => ws.title = name) = none) :
    (l ++ [({ title := name, cell_map := [] } : worksheet)]).find? (fun ws => ws.title = t)
      = if t = name then some ({ title := name, cell_map := [] } : worksheet)
        else l.find? (fun ws => ws.title = t) := by
  induction l with
  | nil =>
    by_cases e : t = name
    · subst e; simp
    · have e' : ¬ name = t := fun x => e x.symm
      simp [e, e']
  | cons a l ih =>
    by_cases ha : a.title = name
    · rw [List.find?_cons_of_pos _ (by simpa using ha)] at h
      cases h
    · rw [List.find?_cons_of_neg _ (by simpa using ha)] at h
      have ih := ih h
      rw [List.cons_append]
      by_cases hat : a.title = t
      · have e : ¬ t = name := fun x => ha (hat.trans x)
        rw [List.find?_cons_of_pos _ (by simpa using hat),
          List.find?_cons_of_pos _ (by simpa using hat), if_neg e]
      · rw [List.find?_cons_of_neg _ (by simpa using hat),
          List.find?_cons_of_neg _ (by simpa using hat)]
        exact ih

theorem sheet_by_title_withSheet (wb : workbook) (name : Str) :
    (withSheet wb name).sheet_by_title name = some (targetSheet wb name) := by
  unfold withSheet targetSheet
  rw [contains_eq_isSome]
  cases h : wb.sheet_by_title name with
  | some ws => simpa using h
  | none =>
    simp only [Option.isSome_none, Bool.false_eq_true, if_false]
    unfold workbook.sheet_by_title workbook.create_sheet
    rw [find_append_new _ _ _ h, if_pos rfl]

theorem sheet_by_title_withSheet_ne (wb : workbook) (name t : Str) (h : t ≠ name) :
    (withSheet wb name).sheet_by_title t = wb.sheet_by_title t := by
  unfold withSheet
  rw [contains_eq_isSome]
  cases hs : wb.sheet_by_title name with
  | some ws => simp
  | none =>
    simp only [Option.isSome_none, Bool.false_eq_true, if_false]
    unfold workbook.sheet_by_title workbook.create_sheet
    rw [find_append_new _ _ _ hs, if_neg h]

theorem find_replaceSheet (l : List worksheet) (ws : worksheet) (t : Str) :
    (replaceSheet ws l).find? (fun s => s.title = t)
      = if t = ws.title then (l.find? (fun s => s.title = t)).map (fun _ => ws)
        else l.find? (fun s => s.title = t) := by
  induction l with
  | nil => simp [replaceSheet]
  | cons a l ih =>
    unfold replaceSheet
    by_cases ha : a.title = ws.title
    · rw [if_pos ha]
      by_cases e : t = ws.title
      · have h1 : ws.title = t := e.symm
        have h2 : a.title = t := ha.trans h1
        rw [if_pos e, List.find?_cons_of_pos _ (by simpa using h1),
          List.find?_cons_of_pos _ (by simpa using h2)]
        rfl
      · have h1 : ¬ ws.title = t := fun x => e x.symm
        have h2 : ¬ a.title = t := fun x => h1 (ha.symm.trans x)
        rw [if_neg e, List.find?_cons_of_neg _ (by simpa using h1),
          List.find?_cons_of_neg _ (by simpa using h2)]
    · rw [if_neg ha]
      by_cases hat : a.title = t
      · have e : ¬ t = ws.title := fun x => ha (hat.trans x)
        rw [if_neg e, List.find?_cons_of_pos _ (by simpa using hat),
          List.find?_cons_of_pos _ (by simpa using hat)]
      · rw [List.find?_cons_of_neg _ (by simpa using hat),
          List.find?_cons_of_neg _ (by simpa using hat)]
        exact ih

theorem sheet_by_title_update (wb : workbook) (ws ws0 : worksheet)
    (h : wb.sheet_by_title ws.title = some ws0) :
    (wb.update ws).sheet_by_title ws.title = some ws := by
  unfold workbook.sheet_by_title workbook.update at *
  rw [find_replaceSheet, if_pos rfl, h]
  rfl

theorem sheet_by_title_update_ne (wb : workbook) (ws : worksheet) (t : Str) (h : t ≠ ws.title) :
    (wb.update ws).sheet_by_title t = wb.sheet_by_title t := by
  unfold workbook.sheet_by_title workbook.update
  rw [find_replaceSheet, if_neg h]

/-! ## `ExcelHandler.cpp`: the write loop -/

theorem make_some (column row : Nat) (hc : 0 < column) (hr : 0 < row) :
    cell_reference.make column row = some { column := column, row := row } := by
  unfold cell_reference.make
  rw [if_neg (by omega)]

theorem make_eq_some (column row : Nat) (ref : cell_reference)
    (h : cell_reference.make column row = some ref) :
    0 < column ∧ 0 < row ∧ ref = { column := column, row := row } := by
  unfold cell_reference.make at h
  split at h
  · cases h
  · simp only [Option.some.injEq] at h
    refine ⟨by omega, by omega, h.symm⟩

namespace ExcelHandler

theorem writeFields_cons (startRow i : Nat) (f : Str) (rest : List Str) (ws ws' : worksheet)
    (h : writeFields startRow i (f :: rest) ws = some ws') :
    0 < toUInt32 (1 + i) ∧ 0 < startRow ∧
      writeFields startRow (i + 1) rest
        (ws.set_value { column := toUInt32 (1 + i), row := startRow } f) = some ws' := by
  unfold writeFields at h
  cases hm : cell_reference.make (toUInt32 (1 + i)) startRow with
  | none => simp [hm] at h
  | some ref =>
    obtain ⟨h1, h2, h3⟩ := make_eq_some _ _ _ hm
    simp only [hm] at h
    subst h3
    exact ⟨h1, h2, h⟩

/-- A write loop that does not throw has written fewer than 2^32 fields. -/
theorem writeFields_bound (startRow : Nat) (fields : List Str) (i : Nat) (ws ws' : worksheet)
    (hi : i < 2 ^ 32) (h : writeFields startRow i fields ws = some ws') :
    i + fields.length < 2 ^ 32 := by
  induction fields generalizing i ws with
  | nil => simpa using hi
  | cons f rest ih =>
    obtain ⟨h1, _, h3⟩ := writeFields_cons _ _ _ _ _ _ h
    have hlt : i + 1 < 2 ^ 32 := by
      by_contra hge
      have : 1 + i = 2 ^ 32 := by omega
      rw [this] at h1
      simp [toUInt32] at h1
    have := ih (i + 1) _ hlt h3
    simp only [List.length_cons]
    omega

/-- The write loop does not throw when the row is not zero and the columns stay below 2^32. -/
theorem writeFields_isSome (startRow : Nat) (fields : List Str) (i : Nat) (ws : worksheet)
    (hr : 0 < startRow) (hn : i + fields.length < 2 ^ 32) :
    ∃ ws', writeFields startRow i fields ws = some ws' := by
  induction fields generalizing i ws with
  | nil => exact ⟨ws, rfl⟩
  | cons f rest ih =>
    simp only [List.length_cons] at hn
    have hu : toUInt32 (1 + i) = 1 + i := toUInt32_of_lt _ (by omega)
    unfold writeFields
    rw [hu, make_some _ _ (by omega) hr]
    exact ih (i + 1) _ (by omega)

theorem writeFields_title (startRow : Nat) (fields : List Str) (i : Nat) (ws ws' : worksheet)
    (h : writeFields startRow i fields ws = some ws') : ws'.title = ws.title := by
  induction fields generalizing i ws with
  | nil =>
    simp only [writeFields, Option.some.injEq] at h
    rw [← h]
  | cons f rest ih =>
    obtain ⟨_, _, h3⟩ := writeFields_cons _ _ _ _ _ _ h
    rw [ih _ _ h3]
    rfl

/-- What the sheet holds after the write loop: field `j` at column `i + 1 + j` of the row
written to, and what it held before everywhere else. -/
theorem writeFields_value (startRow : Nat) (fields : List Str) (i : Nat) (ws ws' : worksheet)
    (hn : i + fields.length < 2 ^ 32) (h : writeFields startRow i fields ws = some ws')
    (ref : cell_reference) :
    ws'.value ref =
      if ref.row = startRow ∧ i < ref.column ∧ ref.column ≤ i + fields.length
      then fields[ref.column - (i + 1)]? else ws.value ref := by
  induction fields generalizing i ws with
  | nil =>
    simp only [writeFields, Option.some.injEq] at h
    subst h
    rw [if_neg]
    simp only [List.length_nil]
    omega
  | cons f rest ih =>
    simp only [List.length_cons] at hn
    obtain ⟨_, _, h3⟩ := writeFields_cons _ _ _ _ _ _ h
    have hu : toUInt32 (1 + i) = 1 + i := toUInt32_of_lt _ (by omega)
    rw [hu] at h3
    rw [ih (i + 1) _ (by omega) h3, value_set_value]
    simp only [List.length_cons]
    by_cases hrow : ref.row = startRow
    · by_cases hcol : ref.column = 1 + i
      · have e : ref = { column := 1 + i, row := startRow } := by
          cases ref
          simp only [cell_reference.mk.injEq]
          exact ⟨hcol, hrow⟩
        rw [if_neg (by omega), if_pos e, if_pos ⟨hrow, by omega, by omega⟩]
        have : ref.column - (i + 1) = 0 := by omega
        rw [this]
        simp
      · have e : ¬ ref = { column := 1 + i, row := startRow } := by
          intro x
          rw [x] at hcol
          exact hcol rfl
        rw [if_neg e]
        by_cases hin : i + 1 < ref.column ∧ ref.column ≤ i + 1 + rest.length
        · rw [if_pos ⟨hrow, hin⟩, if_pos ⟨hrow, by omega, by omega⟩]
          have : ref.column - (i + 1) = (ref.column - (i + 1 + 1)) + 1 := by omega
          rw [this, List.getElem?_cons_succ]
        · rw [if_neg (fun x => hin x.2), if_neg (fun x => hin ⟨by omega, by omega⟩)]
    · have e : ¬ ref = { column := 1 + i, row := startRow } := by
        intro x
        rw [x] at hrow
        exact hrow rfl
      rw [if_neg (fun x => hrow x.1), if_neg e, if_neg (fun x => hrow x.1)]

theorem writeFields_highest_row (startRow : Nat) (fields : List Str) (i : Nat)
    (ws ws' : worksheet) (h : writeFields startRow i fields ws = some ws') :
    ws'.highest_row = if fields = [] then ws.highest_row else max startRow ws.highest_row := by
  induction fields generalizing i ws with
  | nil =>
    simp only [writeFields, Option.some.injEq] at h
    subst h
    rfl
  | cons f rest ih =>
    obtain ⟨_, _, h3⟩ := writeFields_cons _ _ _ _ _ _ h
    rw [ih _ _ h3, highest_row_set_value, if_neg (List.cons_ne_nil _ _)]
    show (if rest = [] then max startRow ws.highest_row
      else max startRow (max startRow ws.highest_row)) = max startRow ws.highest_row
    split <;> omega

theorem writeFields_highest_column (startRow : Nat) (fields : List Str) (i : Nat)
    (ws ws' : worksheet) (hn : i + fields.length < 2 ^ 32)
    (h : writeFields startRow i fields ws = some ws') :
    ws'.highest_column
      = if fields = [] then ws.highest_column else max (i + fields.length) ws.highest_column := by
  induction fields generalizing i ws with
  | nil =>
    simp only [writeFields, Option.some.injEq] at h
    subst h
    rfl
  | cons f rest ih =>
    simp only [List.length_cons] at hn
    obtain ⟨_, _, h3⟩ := writeFields_cons _ _ _ _ _ _ h
    have hu : toUInt32 (1 + i) = 1 + i := toUInt32_of_lt _ (by omega)
    rw [hu] at h3
    rw [ih (i + 1) _ (by omega) h3, highest_column_set_value, if_neg (List.cons_ne_nil _ _)]
    show (if rest = [] then max (1 + i) ws.highest_column
      else max (i + 1 + rest.length) (max (1 + i) ws.highest_column))
        = max (i + (rest.length + 1)) ws.highest_column
    split
    · next hr => simp only [hr, List.length_nil]; omega
    · omega

/-- The export `WriteToXlsx` in terms of the sheet it writes to and of the write loop. -/
theorem WriteToXlsx_eq (fs : FileSystem) (path name data : Str) :
    WriteToXlsx fs (some path) (some name) (some data) =
      match writeFields (startRow (targetSheet (loadOrNew fs path) name)) 0 (SplitString data)
          ((targetSheet (loadOrNew fs path) name).cell A1) with
      | none => (false, fs)
      | some ws => (true, fs.save path ((withSheet (loadOrNew fs path) name).update ws)) := by
  have hw := sheet_by_title_withSheet (loadOrNew fs path) name
  unfold withSheet at hw
  rw [← sheet_titles_any] at hw
  unfold loadOrNew at hw
  simp only [WriteToXlsx, hw]
  simp only [withSheet, loadOrNew, ← sheet_titles_any]

end ExcelHandler

/-! ## `ExcelHandler.cpp`: the loops of `ReadRow` -/

theorem joinFields_concat (l : List Str) (x : Str) :
    joinFields (l ++ [x]) = if l = [] then x else joinFields l ++ SEP :: x := by
  induction l with
  | nil => rfl
  | cons a l ih =>
    cases l with
    | nil => simp [joinFields]
    | cons b l =>
      rw [if_neg (List.cons_ne_nil _ _)] at ih ⊢
      have e : joinFields (a :: b :: l ++ [x]) = a ++ SEP :: joinFields (b :: l ++ [x]) := rfl
      rw [e, ih]
      simp [joinFields]

theorem to_string_of_no_value (ws : worksheet) (ref : cell_reference)
    (h : ws.has_value ref = false) : ws.to_string ref = [] := by
  unfold worksheet.has_value at h
  unfold worksheet.to_string
  cases hv : ws.value ref with
  | none => rfl
  | some v => simp [hv] at h

namespace ExcelHandler

theorem lastColumnWithData_succ (ws : worksheet) (row H : Nat) :
    lastColumnWithData ws row (H + 1)
      = if ws.has_value { column := H + 1, row := row } then H + 1
        else lastColumnWithData ws row H := by
  unfold lastColumnWithData
  rw [List.range'_1_concat, List.foldl_append, Nat.add_comm 1 H]
  rfl

/-- The scan returns the greatest column in `1..H` whose cell in the row has a value, and 0
when there is none. -/
theorem lastColumnWithData_spec (ws : worksheet) (row H : Nat) :
    lastColumnWithData ws row H ≤ H ∧
    (lastColumnWithData ws row H ≠ 0 →
      ws.has_value { column := lastColumnWithData ws row H, row := row } = true) ∧
    (∀ c, lastColumnWithData ws row H < c → c ≤ H →
      ws.has_value { column := c, row := row } = false) := by
  induction H with
  | zero =>
    refine ⟨Nat.le_refl _, fun h => absurd rfl h, ?_⟩
    intro c h1 h2
    have : lastColumnWithData ws row 0 = 0 := rfl
    omega
  | succ H ih =>
    obtain ⟨h1, h2, h3⟩ := ih
    rw [lastColumnWithData_succ]
    by_cases hv : ws.has_value { column := H + 1, row := row } = true
    · rw [if_pos hv]
      exact ⟨Nat.le_refl _, fun _ => hv, fun c hc1 hc2 => by omega⟩
    · rw [if_neg hv]
      refine ⟨by omega, h2, ?_⟩
      intro c hc1 hc2
      by_cases e : c = H + 1
      · subst e
        simpa using hv
      · exact h3 c hc1 (by omega)

theorem rowData_succ (ws : worksheet) (row L : Nat) :
    rowData ws row (L + 1)
      = (if L + 1 > 1 then rowData ws row L ++ [SEP] else rowData ws row L)
          ++ ws.to_string { column := L + 1, row := row } := by
  unfold rowData
  rw [List.range'_1_concat, List.foldl_append, Nat.add_comm 1 L]
  simp only [List.foldl_cons, List.foldl_nil]
  by_cases hv : ws.has_value { column := L + 1, row := row } = true
  · rw [if_pos hv]
  · rw [if_neg hv, to_string_of_no_value ws _ (by simpa using hv)]

/-- The text built by the loop is the join of the texts of columns `1..L`, in order. -/
theorem rowData_eq_joinFields (ws : worksheet) (row L : Nat) :
    rowData ws row L
      = joinFields ((List.range' 1 L).map (fun c => ws.to_string { column := c, row := row })) := by
  induction L with
  | zero => rfl
  | succ L ih =>
    rw [rowData_succ, List.range'_1_concat, List.map_append, List.map_singleton,
      joinFields_concat, ih, Nat.add_comm 1 L]
    cases L with
    | zero => rfl
    | succ n =>
      have hne : List.map (fun c => ws.to_string { column := c, row := row })
          (List.range' 1 (n + 1)) ≠ [] := by
        simp [List.range'_succ]
      rw [if_pos (by omega), if_neg hne]
      simp

end ExcelHandler

/-! ## The read operations on a sheet that was found -/

theorem emptyResult_pos (resultSize : Int) (h : 0 < resultSize) :
    emptyResult true resultSize = [NUL] := by
  unfold emptyResult
  simp [h]

theorem emptyResult_nonpos (result : Bool) (resultSize : Int) (h : resultSize ≤ 0) :
    emptyResult result resultSize = [] := by
  unfold emptyResult
  have : ¬ resultSize > 0 := by omega
  simp [this]

theorem emptyResult_length (result : Bool) (resultSize : Int) :
    ((emptyResult result resultSize).length : Int) ≤ max resultSize 0 := by
  unfold emptyResult
  split
  · next h =>
    simp only [Bool.and_eq_true, decide_eq_true_eq] at h
    simp only [List.length_singleton, Nat.cast_one]
    omega
  · simp

namespace ExcelHandler

theorem ReadRowCount_found (fs : FileSystem) (path name : Str) (wb : workbook) (ws : worksheet)
    (hfs : fs path = some wb) (hws : wb.sheet_by_title name = some ws) :
    ReadRowCount fs (some path) (some name)
      = if (ws.to_string A1).isEmpty && ws.highest_row == 1 then 0
        else toInt32 ws.highest_row := by
  have hc : wb.contains name = true := by rw [contains_eq_isSome, hws]; rfl
  simp only [ReadRowCount, hfs, sheet_titles_any, hc, hws, to_string_cell]
  simp

theorem ReadRow_found (fs : FileSystem) (path name : Str) (wb : workbook) (ws : worksheet)
    (hfs : fs path = some wb) (hws : wb.sheet_by_title name = some ws)
    (rowNumber resultSize : Int) :
    ReadRow fs (some path) (some name) rowNumber true resultSize
      = (fs,
          if rowNumber < 1 ∨ rowNumber > toInt32 ws.highest_row then emptyResult true resultSize
          else if lastColumnWithData ws rowNumber.toNat ws.highest_column = 0 then
            emptyResult true resultSize
          else if toInt32 ((rowText ws rowNumber).length + 1) > resultSize then
            emptyResult true resultSize
          else rowText ws rowNumber ++ [NUL]) := by
  have hc : wb.contains name = true := by rw [contains_eq_isSome, hws]; rfl
  simp only [ReadRow, hfs, hc, hws, rowText, Bool.not_true, Bool.false_eq_true, if_false]
  by_cases h1 : rowNumber < 1 ∨ rowNumber > toInt32 ws.highest_row
  · simp only [if_pos h1]
  · simp only [if_neg h1]
    by_cases h2 : lastColumnWithData ws rowNumber.toNat ws.highest_column = 0
    · simp only [if_pos h2]
    · simp only [if_neg h2]
      split <;> simp

/-- Every call of `ReadRow` stores either the output of a failure or the whole text of the
row with its terminator, the latter only after the size check has passed. -/
theorem ReadRow_stores (fs : FileSystem) (filename sheetName : Option Str) (rowNumber : Int)
    (result : Bool) (resultSize : Int) :
    (ReadRow fs filename sheetName rowNumber result resultSize).2 = emptyResult result resultSize ∨
    ∃ path name wb ws, filename = some path ∧ sheetName = some name ∧ fs path = some wb ∧
      wb.sheet_by_title name = some ws ∧
      ¬ (toInt32 ((rowText ws rowNumber).length + 1) > resultSize) ∧
      (ReadRow fs filename sheetName rowNumber result resultSize).2
        = rowText ws rowNumber ++ [NUL] := by
  cases filename with
  | none => left; rfl
  | some path =>
    cases sheetName with
    | none => left; rfl
    | some name =>
      cases result with
      | false => left; rfl
      | true =>
        cases hfs : fs path with
        | none => left; simp [ReadRow, hfs]
        | some wb =>
          cases hws : wb.sheet_by_title name with
          | none =>
            left
            have hc : wb.contains name = false := by rw [contains_eq_isSome, hws]; rfl
            simp [ReadRow, hfs, hc]
          | some ws =>
            rw [ReadRow_found fs path name wb ws hfs hws]
            by_cases h1 : rowNumber < 1 ∨ rowNumber > toInt32 ws.highest_row
            · left; simp only [if_pos h1]
            · by_cases h2 : lastColumnWithData ws rowNumber.toNat ws.highest_column = 0
              · left; simp only [if_neg h1, if_pos h2]
              · by_cases h3 : toInt32 ((rowText ws rowNumber).length + 1) > resultSize
                · left; simp only [if_neg h1, if_neg h2, if_pos h3]
                · right
                  refine ⟨path, name, wb, ws, rfl, rfl, hfs, hws, h3, ?_⟩
                  simp only [if_neg h1, if_neg h2, if_neg h3]

end ExcelHandler

namespace Source

/-- With an output buffer, every call of `ReadRow` returns, and has stored either the output
of a failure or the whole text of the row with its terminator, the latter only after the size
check has passed. -/
theorem ReadRow_stores_src (fs : FileSystem) (filename sheetName : Option Str) (row : Int)
    (resultSize : Int) :
    ∃ out, ReadRow fs filename sheetName row true resultSize = some (fs, out) ∧
      (out = emptyResult true resultSize ∨
        ∃ path name wb ws, filename = some path ∧ sheetName = some name ∧ fs path = some wb ∧
          wb.sheet_by_title name = some ws ∧
          ¬ (toInt32 ((rowText ws row).length + 1) > resultSize) ∧
          out = rowText ws row ++ [NUL]) := by
  cases filename with
  | none => exact ⟨_, by cases sheetName <;> rfl, Or.inl rfl⟩
  | some path =>
    cases sheetName with
    | none => exact ⟨_, rfl, Or.inl rfl⟩
    | some name =>
      cases hfs : fs path with
      | none => exact ⟨_, by simp [ReadRow, hfs], Or.inl rfl⟩
      | some wb =>
        cases hws : wb.sheet_by_title name with
        | none =>
          have hc : wb.contains name = false := by rw [contains_eq_isSome, hws]; rfl
          exact ⟨_, by simp [ReadRow, hfs, hc], Or.inl rfl⟩
        | some ws =>
          have hc : wb.contains name = true := by rw [contains_eq_isSome, hws]; rfl
          by_cases h1 : row < 1 ∨ row > toInt32 ws.highest_row
          · exact ⟨_, by simp [ReadRow, hfs, hc, hws, h1], Or.inl rfl⟩
          · by_cases h3 : toInt32 ((rowText ws row).length + 1) > resultSize
            · refine ⟨_, ?_, Or.inl rfl⟩
              unfold rowText at h3
              simp [ReadRow, hfs, hc, hws, h1, h3]
            · refine ⟨rowText ws row ++ [NUL], ?_,
                Or.inr ⟨path, name, wb, ws, rfl, rfl, hfs, hws, h3, rfl⟩⟩
              unfold rowText at h3 ⊢
              simp [ReadRow, hfs, hc, hws, h1, h3]

/-- Without an output buffer, `ReadRow` stores nothing when `resultSize <= 0`, and faults in
its exception handler otherwise. -/
theorem ReadRow_null_src (fs : FileSystem) (filename sheetName : Option Str) (row : Int)
    (resultSize : Int) :
    ReadRow fs filename sheetName row false resultSize
      = if resultSize > 0 then none else some (fs, []) := by
  cases filename <;> cases sheetName <;> rfl

end Source

/-! ## `ExcelHandler.cpp`: the effect of one write -/

theorem startRow_eq (ws : worksheet) (h : ws.highest_row + 1 < 2 ^ 32) :
    ExcelHandler.startRow ws
      = (if ws.highest_row = 1 ∧ ws.to_string A1 = [] then 1 else ws.highest_row + 1) := by
  unfold ExcelHandler.startRow
  rw [to_string_cell, toUInt32_of_lt _ h]
  by_cases h1 : ws.highest_row = 1 ∧ ws.to_string A1 = []
  · rw [if_pos h1]
    simp [h1.1, h1.2]
  · rw [if_neg h1]
    have : ¬ (((ws.to_string A1).isEmpty && ws.highest_row == 1) = true) := by
      intro x
      simp only [Bool.and_eq_true, List.isEmpty_iff, beq_iff_eq] at x
      exact h1 ⟨x.2, x.1⟩
    rw [if_neg this]

theorem value_of_no_cells (ws : worksheet) (h : ws.cell_map = []) (ref : cell_reference) :
    ws.value ref = none := by
  simp [worksheet.value, worksheet.lookup, h]

theorem highest_row_of_no_cells (ws : worksheet) (h : ws.cell_map = []) : ws.highest_row = 1 := by
  simp [worksheet.highest_row, h]

theorem highest_column_of_no_cells (ws : worksheet) (h : ws.cell_map = []) :
    ws.highest_column = 1 := by
  simp [worksheet.highest_column, h]

theorem startRow_of_no_cells (ws : worksheet) (h : ws.cell_map = []) :
    ExcelHandler.startRow ws = 1 := by
  rw [startRow_eq ws (by rw [highest_row_of_no_cells ws h]; decide), if_pos]
  exact ⟨highest_row_of_no_cells ws h, by simp [worksheet.to_string, value_of_no_cells ws h]⟩

theorem save_same (fs : FileSystem) (path : Str) (wb : workbook) :
    fs.save path wb path = some wb := by
  simp [FileSystem.save]

theorem save_other (fs : FileSystem) (path p : Str) (wb : workbook) (h : p ≠ path) :
    fs.save path wb p = fs p := by
  simp [FileSystem.save, h]

theorem loadOrNew_of_some (fs : FileSystem) (path : Str) (wb : workbook) (h : fs path = some wb) :
    loadOrNew fs path = wb := by
  simp [loadOrNew, h]

theorem targetSheet_of_some (wb : workbook) (name : Str) (ws : worksheet)
    (h : wb.sheet_by_title name = some ws) : targetSheet wb name = ws := by
  simp [targetSheet, h]

/-- The file system after a write whose loop does not throw: the sheet of the given title
holds the fields in the row written to and what the sheet held before elsewhere; the other
sheets of the document and the other files are as before. -/
theorem WriteToXlsx_of_writeFields (fs : FileSystem) (path name data : Str)
    (ws0 ws1 : worksheet) (h0 : targetSheet (loadOrNew fs path) name = ws0)
    (hw : ExcelHandler.writeFields (ExcelHandler.startRow ws0) 0 (SplitString data)
      (ws0.cell A1) = some ws1) :
    ExcelHandler.WriteToXlsx fs (some path) (some name) (some data)
      = (true, fs.save path ((withSheet (loadOrNew fs path) name).update ws1)) ∧
    ((withSheet (loadOrNew fs path) name).update ws1).sheet_by_title name = some ws1 ∧
    (∀ t, t ≠ name →
      ((withSheet (loadOrNew fs path) name).update ws1).sheet_by_title t
        = (loadOrNew fs path).sheet_by_title t) ∧
    (SplitString data).length < 2 ^ 32 ∧
    (∀ ref, ws1.value ref =
      if ref.row = ExcelHandler.startRow ws0 ∧ 0 < ref.column ∧
          ref.column ≤ (SplitString data).length
      then (SplitString data)[ref.column - 1]? else ws0.value ref) ∧
    ws1.highest_row = (if SplitString data = [] then ws0.highest_row
      else max (ExcelHandler.startRow ws0) ws0.highest_row) ∧
    ws1.highest_column = (if SplitString data = [] then ws0.highest_column
      else max (SplitString data).length ws0.highest_column) := by
  have htitle : ws1.title = name := by
    rw [ExcelHandler.writeFields_title _ _ _ _ _ hw, title_cell, ← h0, targetSheet_title]
  have hn : 0 + (SplitString data).length < 2 ^ 32 :=
    ExcelHandler.writeFields_bound _ _ 0 _ _ (by decide) hw
  refine ⟨?_, ?_, ?_, by omega, ?_, ?_, ?_⟩
  · rw [ExcelHandler.WriteToXlsx_eq, h0, hw]
  · have := sheet_by_title_update (withSheet (loadOrNew fs path) name) ws1
      (targetSheet (loadOrNew fs path) name)
      (by rw [htitle]; exact sheet_by_title_withSheet _ _)
    rw [htitle] at this
    exact this
  · intro t ht
    rw [sheet_by_title_update_ne _ _ _ (by rw [htitle]; exact ht),
      sheet_by_title_withSheet_ne _ _ _ ht]
  · intro ref
    rw [ExcelHandler.writeFields_value _ _ 0 _ _ hn hw ref, value_cell]
    simp only [Nat.zero_add]
  · rw [ExcelHandler.writeFields_highest_row _ _ 0 _ _ hw, highest_row_cell_A1]
  · rw [ExcelHandler.writeFields_highest_column _ _ 0 _ _ hn hw, highest_column_cell_A1]
    simp only [Nat.zero_add]

theorem separators_append (a b : Str) : separators (a ++ b) = separators a + separators b := by
  unfold separators
  exact List.count_append _ _ _

theorem separators_joinFields (l : List Str) :
    separators (joinFields l) = (l.length - 1) + (l.map separators).sum := by
  induction l with
  | nil => rfl
  | cons a l ih =>
    cases l with
    | nil => simp [joinFields]
    | cons b l =>
      have e : joinFields (a :: b :: l) = a ++ SEP :: joinFields (b :: l) := rfl
      have hs : separators (SEP :: joinFields (b :: l)) = separators (joinFields (b :: l)) + 1 := by
        unfold separators
        exact List.count_cons_self _ _
      rw [e, separators_append, hs, ih]
      simp only [List.length_cons, List.map_cons, List.sum_cons]
      omega

/-! ## Splitting and joining -/

theorem fieldsOf_cons_of_ne (c : Char) (cs t : Str) (ts : List Str) (hc : ¬ c = SEP)
    (h : fieldsOf cs = t :: ts) : fieldsOf (c :: cs) = (c :: t) :: ts := by
  simp only [fieldsOf, hc, if_false, h]

theorem fieldsOf_append_sep (f s : Str) (h : SEP ∉ f) :
    fieldsOf (f ++ SEP :: s) = f :: fieldsOf s := by
  induction f with
  | nil => simp [fieldsOf]
  | cons c cs ih =>
    have hc : ¬ c = SEP := fun e => h (by simp [e])
    have hcs : SEP ∉ cs := fun e => h (List.mem_cons_of_mem _ e)
    rw [List.cons_append]
    exact fieldsOf_cons_of_ne c _ cs _ hc (ih hcs)

theorem fieldsOf_of_no_sep (f : Str) (h : SEP ∉ f) (hne : f ≠ []) : fieldsOf f = [f] := by
  induction f with
  | nil => exact absurd rfl hne
  | cons c cs ih =>
    have hc : ¬ c = SEP := fun e => h (by simp [e])
    have hcs : SEP ∉ cs := fun e => h (List.mem_cons_of_mem _ e)
    by_cases he : cs = []
    · subst he
      simp [fieldsOf, hc]
    · simp only [fieldsOf, hc, if_false, ih hcs he]

/-- Splitting the join of fields that are not empty and hold no separator gives the fields
back. -/
theorem fieldsOf_joinFields (fields : List Str) (hne : fields ≠ [])
    (h : ∀ f ∈ fields, f ≠ [] ∧ SEP ∉ f) : fieldsOf (joinFields fields) = fields := by
  induction fields with
  | nil => exact absurd rfl hne
  | cons f rest ih =>
    cases rest with
    | nil => exact fieldsOf_of_no_sep f (h f (by simp)).2 (h f (by simp)).1
    | cons g rest =>
      have e : joinFields (f :: g :: rest) = f ++ SEP :: joinFields (g :: rest) := rfl
      rw [e, fieldsOf_append_sep _ _ (h f (by simp)).2,
        ih (List.cons_ne_nil _ _) (fun x hx => h x (List.mem_cons_of_mem _ hx))]

theorem joinFields_cons_cons (c : Char) (t : Str) (ts : List Str) :
    joinFields ((c :: t) :: ts) = c :: joinFields (t :: ts) := by
  cases ts <;> rfl

/-- Joining the fields of a text gives the text back, without its last character when that
is a separator. -/
theorem joinFields_fieldsOf (s : Str) :
    joinFields (fieldsOf s) = if endsInField s then s else s.dropLast := by
  induction s with
  | nil => rfl
  | cons c cs ih =>
    by_cases hcs : cs = []
    · subst hcs
      by_cases hc : c = SEP
      · simp [fieldsOf, hc, joinFields, endsInField]
      · simp [fieldsOf, hc, joinFields, endsInField]
    · rw [endsInField_cons c cs hcs, List.dropLast_cons_of_ne_nil hcs]
      have hne : fieldsOf cs ≠ [] := fun h => hcs ((fieldsOf_eq_nil cs).1 h)
      obtain ⟨t, ts, hts⟩ := List.exists_cons_of_ne_nil hne
      by_cases hc : c = SEP
      · simp only [fieldsOf, hc, if_true]
        rw [hts] at ih ⊢
        have e : joinFields ([] :: t :: ts) = [] ++ SEP :: joinFields (t :: ts) := rfl
        rw [e, ih]
        split <;> rfl
      · simp only [fieldsOf, hc, if_false, hts]
        rw [hts] at ih
        rw [joinFields_cons_cons, ih]
        split <;> rfl

theorem separators_dropLast (s : Str) (hne : s ≠ []) (h : endsInField s = false) :
    separators s.dropLast + 1 = separators s := by
  have hl : s.getLast? = some SEP := by
    unfold endsInField at h
    cases hg : s.getLast? with
    | none => exact absurd (List.getLast?_eq_none_iff.1 hg) hne
    | some c =>
      rw [hg] at h
      simp only [bne_eq_false_iff_eq] at h
      rw [h]
  have hs : s = s.dropLast ++ [SEP] := by
    have h1 := List.dropLast_concat_getLast hne
    have h2 : s.getLast hne = SEP := by
      rw [List.getLast?_eq_getLast _ hne] at hl
      exact Option.some.inj hl
    rw [h2] at h1
    exact h1.symm
  conv_rhs => rw [hs]
  rw [separators_append]
  rfl

/-! ## Reading the row of a first write -/

/-- A record that is not empty, written to a sheet with no cells, is read back from row 1
as the join of its fields. -/
theorem ReadRow_after_first_write (fs : FileSystem) (path name data : Str)
    (hempty : (targetSheet (loadOrNew fs path) name).cell_map = []) (hne : data ≠ [])
    (hn : (SplitString data).length < 2 ^ 32) (resultSize : Int)
    (hsize : ((joinFields (SplitString data)).length : Int) + 1 ≤ resultSize) :
    (ExcelHandler.ReadRow
        (ExcelHandler.WriteToXlsx fs (some path) (some name) (some data)).2
        (some path) (some name) 1 true resultSize).2
      = joinFields (SplitString data) ++ [NUL] := by
  have hstart := startRow_of_no_cells _ hempty
  have hfne : SplitString data ≠ [] := by
    rw [SplitString_eq_fieldsOf]
    exact fun h => hne ((fieldsOf_eq_nil data).1 h)
  have hpos : 0 < (SplitString data).length := List.length_pos.2 hfne
  obtain ⟨ws1, hw⟩ := ExcelHandler.writeFields_isSome 1 (SplitString data) 0
    ((targetSheet (loadOrNew fs path) name).cell A1) (by decide) (by omega)
  rw [← hstart] at hw
  obtain ⟨h1, h2, _, _, h5, h6, h7⟩ := WriteToXlsx_of_writeFields fs path name data _ ws1 rfl hw
  rw [h1]
  simp only
  rw [ExcelHandler.ReadRow_found _ path name _ ws1 (save_same _ _ _) h2]
  simp only
  rw [if_neg hfne, hstart, highest_row_of_no_cells _ hempty] at h6
  rw [if_neg hfne, highest_column_of_no_cells _ hempty] at h7
  have hrow : ws1.highest_row = 1 := by rw [h6]; rfl
  have hcol : ws1.highest_column = (SplitString data).length := by rw [h7]; omega
  have hval : ∀ c, ws1.value { column := c, row := 1 } =
      if 0 < c ∧ c ≤ (SplitString data).length then (SplitString data)[c - 1]? else none := by
    intro c
    rw [h5, hstart, value_of_no_cells _ hempty]
    by_cases hc : 0 < c ∧ c ≤ (SplitString data).length
    · rw [if_pos ⟨rfl, hc⟩, if_pos hc]
    · rw [if_neg (fun x => hc x.2), if_neg hc]
  have h31 : toInt32 1 = 1 := toInt32_of_lt 1 (by decide)
  have hnat : (1 : Int).toNat = 1 := rfl
  have hL : ExcelHandler.lastColumnWithData ws1 1 ws1.highest_column
      = (SplitString data).length := by
    obtain ⟨a, _, c⟩ := ExcelHandler.lastColumnWithData_spec ws1 1 ws1.highest_column
    rw [hcol] at a c ⊢
    by_contra hlt
    have hno := c (SplitString data).length (by omega) (Nat.le_refl _)
    unfold worksheet.has_value at hno
    rw [hval, if_pos ⟨hpos, Nat.le_refl _⟩, List.getElem?_eq_getElem (by omega)] at hno
    cases hno
  have htext : ExcelHandler.rowText ws1 1 = joinFields (SplitString data) := by
    unfold ExcelHandler.rowText
    rw [hnat, hL, ExcelHandler.rowData_eq_joinFields]
    congr 1
    apply List.ext_getElem?
    intro i
    rw [List.getElem?_map]
    by_cases hi : i < (SplitString data).length
    · rw [List.getElem?_range' _ _ hi]
      simp only [Option.map_some', worksheet.to_string]
      rw [hval, if_pos ⟨by omega, by omega⟩]
      have : 1 + 1 * i - 1 = i := by omega
      rw [this, List.getElem?_eq_getElem hi]
      rfl
    · rw [List.getElem?_eq_none (by simpa using hi), List.getElem?_eq_none (by omega)]
      rfl
  have hfit : ¬ (toInt32 ((joinFields (SplitString data)).length + 1) > resultSize) := by
    have hle := toInt32_le ((joinFields (SplitString data)).length + 1)
    have hc : (((joinFields (SplitString data)).length + 1 : Nat) : Int)
        = ((joinFields (SplitString data)).length : Int) + 1 := by push_cast; rfl
    rw [hc] at hle
    exact not_lt.2 (le_trans hle hsize)
  have hin : ¬ ((1 : Int) < 1 ∨ (1 : Int) > 1) := by decide
  rw [hrow, h31, hnat, hL, htext, if_neg hin, if_neg (Nat.pos_iff_ne_zero.1 hpos), if_neg hfit]

/-! ## Repeated writes: the invariant -/

theorem getElem?_some_lt {α : Type} (l : List α) (i : Nat) (a : α) (h : l[i]? = some a) :
    i < l.length := by
  by_contra hge
  rw [List.getElem?_eq_none (Nat.le_of_not_lt hge)] at h
  cases h

theorem fieldsOf_head (data : Str) (hne : data ≠ []) (hfirst : data.head? ≠ some SEP) :
    ∃ f, (fieldsOf data)[0]? = some f ∧ f ≠ [] := by
  cases data with
  | nil => exact absurd rfl hne
  | cons c cs =>
    have hc : ¬ c = SEP := fun e => hfirst (by rw [e]; rfl)
    cases hcs : fieldsOf cs with
    | nil =>
      refine ⟨[c], ?_, List.cons_ne_nil _ _⟩
      simp only [fieldsOf, hc, if_false, hcs]
      exact List.getElem?_cons_zero
    | cons t ts =>
      refine ⟨c :: t, ?_, List.cons_ne_nil _ _⟩
      rw [fieldsOf_cons_of_ne c cs t ts hc hcs]
      exact List.getElem?_cons_zero

/-- The first write, to a sheet with no cells, of a record that is not empty and does not
begin with a separator. -/
theorem written_first (fs : FileSystem) (path name data : Str)
    (hempty : (targetSheet (loadOrNew fs path) name).cell_map = [])
    (hne : data ≠ []) (hfirst : data.head? ≠ some SEP)
    (hn : (SplitString data).length < 2 ^ 32) :
    written (ExcelHandler.WriteToXlsx fs (some path) (some name) (some data)).2 path name
      [data] := by
  have hstart := startRow_of_no_cells _ hempty
  have hfne : SplitString data ≠ [] := by
    rw [SplitString_eq_fieldsOf]
    exact fun h => hne ((fieldsOf_eq_nil data).1 h)
  obtain ⟨ws1, hw⟩ := ExcelHandler.writeFields_isSome 1 (SplitString data) 0
    ((targetSheet (loadOrNew fs path) name).cell A1) (by decide) (by rw [Nat.zero_add]; exact hn)
  rw [← hstart] at hw
  obtain ⟨h1, h2, _, _, h5, h6, _⟩ := WriteToXlsx_of_writeFields fs path name data _ ws1 rfl hw
  rw [h1]
  rw [if_neg hfne, hstart, highest_row_of_no_cells _ hempty] at h6
  have hval : ∀ j f, (SplitString data)[j]? = some f →
      ws1.value { column := j + 1, row := 1 } = some f := by
    intro j f hjf
    have hj := getElem?_some_lt _ _ _ hjf
    rw [h5, hstart, if_pos ⟨rfl, Nat.succ_pos _, hj⟩]
    exact hjf
  refine ⟨_, ws1, save_same _ _ _, h2, ?_, ?_, ?_⟩
  · rw [h6]
    rfl
  · obtain ⟨f, hf0, hfne0⟩ := fieldsOf_head data hne hfirst
    rw [← SplitString_eq_fieldsOf] at hf0
    have := hval 0 f hf0
    unfold worksheet.to_string A1
    rw [this]
    exact hfne0
  · intro i r hi j f hjf
    cases i with
    | zero =>
      simp only [List.getElem?_cons_zero, Option.some.injEq] at hi
      subst hi
      exact hval j f hjf
    | succ i => simp at hi

/-- A further write, of a record that is not empty. -/
theorem written_next (fs : FileSystem) (path name data : Str) (records : List Str)
    (h : written fs path name records) (hk : records.length + 1 < 2 ^ 32)
    (hne : data ≠ []) (hn : (SplitString data).length < 2 ^ 32) :
    written (ExcelHandler.WriteToXlsx fs (some path) (some name) (some data)).2 path name
      (records ++ [data]) := by
  obtain ⟨wb, ws, hfs, hws, hrow, hA1, hold⟩ := h
  have h0 : targetSheet (loadOrNew fs path) name = ws := by
    rw [loadOrNew_of_some fs path wb hfs, targetSheet_of_some wb name ws hws]
  have hstart : ExcelHandler.startRow ws = records.length + 1 := by
    rw [startRow_eq ws (by rw [hrow]; exact hk), if_neg (fun x => hA1 x.2), hrow]
  have hfne : SplitString data ≠ [] := by
    rw [SplitString_eq_fieldsOf]
    exact fun h => hne ((fieldsOf_eq_nil data).1 h)
  obtain ⟨ws1, hw⟩ := ExcelHandler.writeFields_isSome (records.length + 1) (SplitString data) 0
    (ws.cell A1) (Nat.succ_pos _) (by rw [Nat.zero_add]; exact hn)
  rw [← hstart] at hw
  obtain ⟨h1, h2, _, _, h5, h6, _⟩ := WriteToXlsx_of_writeFields fs path name data ws ws1 h0 hw
  rw [h1]
  rw [if_neg hfne, hstart, hrow] at h6
  have hpos : 1 ≤ records.length := by
    rw [← hrow]
    exact one_le_highest_row ws
  refine ⟨_, ws1, save_same _ _ _, h2, ?_, ?_, ?_⟩
  · rw [h6, List.length_append, List.length_singleton]
    exact Nat.max_eq_left (Nat.le_succ _)
  · unfold worksheet.to_string
    rw [h5, if_neg]
    · exact hA1
    · intro x
      rw [hstart] at x
      have : (1 : Nat) = records.length + 1 := x.1
      omega
  · intro i r hi j f hjf
    rw [h5, hstart]
    by_cases hlt : i < records.length
    · rw [List.getElem?_append_left hlt] at hi
      rw [if_neg]
      · exact hold i r hi j f hjf
      · intro x
        have : i + 1 = records.length + 1 := x.1
        omega
    · have hi' := getElem?_some_lt _ _ _ hi
      rw [List.length_append, List.length_singleton] at hi'
      have he : i = records.length := by omega
      subst he
      rw [List.getElem?_append_right (Nat.le_refl _), Nat.sub_self] at hi
      simp only [List.getElem?_cons_zero, Option.some.injEq] at hi
      subst hi
      have hj := getElem?_some_lt _ _ _ hjf
      rw [if_pos ⟨rfl, Nat.succ_pos _, hj⟩]
      exact hjf

/-- Writing further records, none of them empty, keeps the rows written so far and adds one
row for each record. -/
theorem written_writeAll (path name : Str) (rest : List Str) :
    ∀ (fs : FileSystem) (records : List Str), written fs path name records →
      records.length + rest.length < 2 ^ 32 →
      (∀ data ∈ rest, data ≠ [] ∧ (SplitString data).length < 2 ^ 32) →
      written (ExcelHandler.writeAll fs path name rest) path name (records ++ rest) := by
  induction rest with
  | nil =>
    intro fs records h _ _
    rw [List.append_nil]
    exact h
  | cons data rest ih =>
    intro fs records h hk hall
    rw [List.length_cons] at hk
    have hd := hall data (List.mem_cons_self _ _)
    have hstep := written_next fs path name data records h (by omega) hd.1 hd.2
    have := ih _ (records ++ [data]) hstep
      (by rw [List.length_append, List.length_singleton]; omega)
      (fun x hx => hall x (List.mem_cons_of_mem _ hx))
    rw [List.append_assoc] at this
    exact this

/-! ## Claims -/

/-- Claim C4, counterexample: `SplitString(",,")` returns two fields and `SplitString("")`
returns none, so neither returns one field more than the text has commas. -/
theorem SplitString_trailing_counterexample :
    SplitString [',', ','] = [[], []] ∧
    (SplitString [',', ',']).length ≠ separators [',', ','] + 1 ∧
    SplitString [] = [] ∧
    (SplitString []).length ≠ separators [] + 1 := by
  decide

/-- Claim C4, amended: for every text the number of fields `SplitString` returns is the number
of commas, plus one exactly when the text is not empty and does not end in a comma; so
`SplitString(",,")` is two empty fields and `SplitString("")` is no field. -/
theorem SplitString_length (s : Str) :
    (SplitString s).length = separators s + (if endsInField s then 1 else 0) ∧
    SplitString [',', ','] = [[], []] ∧ SplitString [] = [] := by
  refine ⟨?_, by decide, by decide⟩
  rw [SplitString_eq_fieldsOf]
  exact fieldsOf_length s

/-- Claim C8: for a sheet with highest row `h` (with `h + 1` in the range of `row_t`), the row
`WriteToXlsx` writes to is 1 when `h = 1` and the text of A1 is empty, and `h + 1` otherwise; it
is at least 1, and it is 1 for a sheet with no cells. -/
theorem startRow_spec (ws : worksheet) (h : ws.highest_row + 1 < 2 ^ 32) :
    ExcelHandler.startRow ws
        = (if ws.highest_row = 1 ∧ ws.to_string A1 = [] then 1 else ws.highest_row + 1) ∧
    1 ≤ ExcelHandler.startRow ws ∧
    (ws.cell_map = [] → ExcelHandler.startRow ws = 1) := by
  have hs := startRow_eq ws h
  refine ⟨hs, ?_, ?_⟩
  · rw [hs]
    split <;> omega
  · exact startRow_of_no_cells ws

/-- Claim C8, witness: a sheet with two rows is written to on row 3. -/
theorem startRow_spec_witness :
    sheetTwoRows.highest_row + 1 < 2 ^ 32 ∧ ExcelHandler.startRow sheetTwoRows = 3 :=
  ⟨by decide, (startRow_spec sheetTwoRows (by decide)).1.trans (by decide)⟩

/-- Claim C7: with every highest row in the range of `int`, `ReadRowCount` returns 0 when
there is no document at the path, when no sheet of the document has the given name, and when
the sheet has highest row 1 and an empty text in A1; otherwise it returns the highest row of
the sheet; it is never negative. -/
theorem ReadRowCount_spec (fs : FileSystem) (path name : Str)
    (hrange : ∀ p wb, fs p = some wb → ∀ ws ∈ wb.sheets, ws.highest_row < 2 ^ 31) :
    (fs path = none → ExcelHandler.ReadRowCount fs (some path) (some name) = 0) ∧
    (∀ wb, fs path = some wb → (∀ ws ∈ wb.sheets, ws.title ≠ name) →
      ExcelHandler.ReadRowCount fs (some path) (some name) = 0) ∧
    (∀ wb ws, fs path = some wb → wb.sheet_by_title name = some ws →
      ws.to_string A1 = [] → ws.highest_row = 1 →
      ExcelHandler.ReadRowCount fs (some path) (some name) = 0) ∧
    (∀ wb ws, fs path = some wb → wb.sheet_by_title name = some ws →
      ¬ (ws.to_string A1 = [] ∧ ws.highest_row = 1) →
      ExcelHandler.ReadRowCount fs (some path) (some name) = ws.highest_row) ∧
    (∀ filename sheetName, 0 ≤ ExcelHandler.ReadRowCount fs filename sheetName) := by
  have hnone : ∀ p n wb, fs p = some wb → wb.sheet_by_title n = none →
      ExcelHandler.ReadRowCount fs (some p) (some n) = 0 := by
    intro p n wb hfs hws
    have hc : wb.contains n = false := by rw [contains_eq_isSome, hws]; rfl
    simp [ExcelHandler.ReadRowCount, hfs, sheet_titles_any, hc]
  refine ⟨?_, ?_, ?_, ?_, ?_⟩
  · intro hfs
    simp [ExcelHandler.ReadRowCount, hfs]
  · intro wb hfs hall
    exact hnone path name wb hfs (sheet_by_title_none wb name hall)
  · intro wb ws hfs hws h1 h2
    rw [ExcelHandler.ReadRowCount_found fs path name wb ws hfs hws]
    simp [h1, h2]
  · intro wb ws hfs hws hnd
    rw [ExcelHandler.ReadRowCount_found fs path name wb ws hfs hws,
      toInt32_of_lt _ (hrange path wb hfs ws (sheet_by_title_mem wb name ws hws))]
    rw [if_neg]
    intro x
    simp only [Bool.and_eq_true, List.isEmpty_iff, beq_iff_eq] at x
    exact hnd x
  · intro filename sheetName
    cases filename with
    | none => simp [ExcelHandler.ReadRowCount]
    | some p =>
      cases sheetName with
      | none => simp [ExcelHandler.ReadRowCount]
      | some n =>
        cases hfs : fs p with
        | none => simp [ExcelHandler.ReadRowCount, hfs]
        | some wb =>
          cases hws : wb.sheet_by_title n with
          | none => rw [hnone p n wb hfs hws]
          | some ws =>
            rw [ExcelHandler.ReadRowCount_found fs p n wb ws hfs hws,
              toInt32_of_lt _ (hrange p wb hfs ws (sheet_by_title_mem wb n ws hws))]
            split
            · exact Int.le_refl 0
            · exact Int.ofNat_nonneg _

theorem oneFile_range (ws : worksheet) (h : ws.highest_row < 2 ^ 31) :
    ∀ p wb, oneFile ws p = some wb → ∀ s ∈ wb.sheets, s.highest_row < 2 ^ 31 := by
  intro p wb hp s hs
  unfold oneFile FileSystem.save noFiles at hp
  split at hp
  · simp only [Option.some.injEq] at hp
    subst hp
    simp only [List.mem_singleton] at hs
    subst hs
    exact h
  · cases hp

/-- Claim C7, witness: the count of a sheet with two rows is 2. -/
theorem ReadRowCount_spec_witness :
    (∀ p wb, oneFile sheetTwoRows p = some wb → ∀ ws ∈ wb.sheets, ws.highest_row < 2 ^ 31) ∧
    ExcelHandler.ReadRowCount (oneFile sheetTwoRows) (some ['f']) (some ['s']) = 2 :=
  ⟨oneFile_range sheetTwoRows (by decide),
    ((ReadRowCount_spec (oneFile sheetTwoRows) ['f'] ['s']
      (oneFile_range sheetTwoRows (by decide))).2.2.2.1
        { sheets := [sheetTwoRows] } sheetTwoRows (by decide) (by decide) (by decide)).trans
      (by decide)⟩

/-- Claim C9: for a row that passes the bounds check, the column `L` found by the scan is the
greatest column in `1..highest_column` whose cell in the row has a value, and 0 when there is
none. When `L = 0` the output is the empty string; otherwise, with a buffer that has room for
it, the output is the comma-join of the texts of columns `1..L` in ascending order (the text of
a cell without a value being empty), followed by the terminator. The join has `L - 1`
separators besides those of the texts, and its entry `c` is the text of column `c`. -/
theorem ReadRow_serialized_row (fs : FileSystem) (path name : Str) (wb : workbook)
    (ws : worksheet) (hfs : fs path = some wb) (hws : wb.sheet_by_title name = some ws)
    (rowNumber resultSize : Int)
    (hrow : 1 ≤ rowNumber ∧ rowNumber ≤ toInt32 ws.highest_row) :
    (ExcelHandler.lastColumnWithData ws rowNumber.toNat ws.highest_column ≤ ws.highest_column ∧
      (ExcelHandler.lastColumnWithData ws rowNumber.toNat ws.highest_column ≠ 0 →
        ws.has_value
          { column := ExcelHandler.lastColumnWithData ws rowNumber.toNat ws.highest_column,
            row := rowNumber.toNat } = true) ∧
      (∀ c, ExcelHandler.lastColumnWithData ws rowNumber.toNat ws.highest_column < c →
        c ≤ ws.highest_column → ws.has_value { column := c, row := rowNumber.toNat } = false)) ∧
    (ExcelHandler.lastColumnWithData ws rowNumber.toNat ws.highest_column = 0 →
      0 < resultSize →
      (ExcelHandler.ReadRow fs (some path) (some name) rowNumber true resultSize).2 = [NUL]) ∧
    (ExcelHandler.lastColumnWithData ws rowNumber.toNat ws.highest_column ≠ 0 →
      ((joinFields ((List.range' 1
          (ExcelHandler.lastColumnWithData ws rowNumber.toNat ws.highest_column)).map
          (fun c => ws.to_string { column := c, row := rowNumber.toNat }))).length : Int) + 1
        ≤ resultSize →
      (ExcelHandler.ReadRow fs (some path) (some name) rowNumber true resultSize).2
        = joinFields ((List.range' 1
            (ExcelHandler.lastColumnWithData ws rowNumber.toNat ws.highest_column)).map
            (fun c => ws.to_string { column := c, row := rowNumber.toNat })) ++ [NUL]) ∧
    separators (joinFields ((List.range' 1
        (ExcelHandler.lastColumnWithData ws rowNumber.toNat ws.highest_column)).map
        (fun c => ws.to_string { column := c, row := rowNumber.toNat })))
      = (ExcelHandler.lastColumnWithData ws rowNumber.toNat ws.highest_column - 1)
        + (((List.range' 1
            (ExcelHandler.lastColumnWithData ws rowNumber.toNat ws.highest_column)).map
            (fun c => ws.to_string { column := c, row := rowNumber.toNat })).map separators).sum ∧
    (∀ c, 1 ≤ c → c ≤ ExcelHandler.lastColumnWithData ws rowNumber.toNat ws.highest_column →
      ((List.range' 1
          (ExcelHandler.lastColumnWithData ws rowNumber.toNat ws.highest_column)).map
          (fun c => ws.to_string { column := c, row := rowNumber.toNat }))[c - 1]?
        = some ((ws.value { column := c, row := rowNumber.toNat }).getD [])) := by
  have hin : ¬ (rowNumber < 1 ∨ rowNumber > toInt32 ws.highest_row) := by omega
  refine ⟨ExcelHandler.lastColumnWithData_spec ws rowNumber.toNat ws.highest_column, ?_, ?_, ?_, ?_⟩
  · intro hL hsize
    rw [ExcelHandler.ReadRow_found fs path name wb ws hfs hws]
    simp only [if_neg hin, if_pos hL]
    exact emptyResult_pos resultSize hsize
  · intro hL hsize
    rw [ExcelHandler.ReadRow_found fs path name wb ws hfs hws]
    have ht : ExcelHandler.rowText ws rowNumber
        = joinFields ((List.range' 1
            (ExcelHandler.lastColumnWithData ws rowNumber.toNat ws.highest_column)).map
            (fun c => ws.to_string { column := c, row := rowNumber.toNat })) := by
      unfold ExcelHandler.rowText
      exact ExcelHandler.rowData_eq_joinFields _ _ _
    rw [← ht] at hsize ⊢
    have hle := toInt32_le ((ExcelHandler.rowText ws rowNumber).length + 1)
    have hfit : ¬ (toInt32 ((ExcelHandler.rowText ws rowNumber).length + 1) > resultSize) := by
      push_cast at hle
      omega
    simp only [if_neg hin, if_neg hL, if_neg hfit]
  · rw [separators_joinFields]
    simp
  · intro c h1 h2
    rw [List.getElem?_map, List.getElem?_range' _ _ (by omega)]
    have : 1 + 1 * (c - 1) = c := by omega
    simp only [Option.map_some', this]
    rfl

/-- Claim C9, witness: row 1 of a sheet with `a` in A1, no value in B1 and `c` in C1 is read
as `a,,c`. -/
theorem ReadRow_serialized_row_witness :
    (1 ≤ (1 : Int) ∧ (1 : Int) ≤ toInt32 sheetGapRow.highest_row) ∧
    (ExcelHandler.ReadRow (oneFile sheetGapRow) (some ['f']) (some ['s']) 1 true 16).2
      = ['a', ',', ',', 'c', NUL] :=
  ⟨by decide,
    ((ReadRow_serialized_row (oneFile sheetGapRow) ['f'] ['s'] { sheets := [sheetGapRow] }
      sheetGapRow (by decide) (by decide) 1 16 (by decide)).2.2.1 (by decide) (by decide)).trans
      (by decide)⟩

/-- Claim C6: in both implementations, for a row whose text is shorter than 2^31 - 1 bytes,
`ReadRow` stores nothing when `resultSize <= 0`, never stores more than `resultSize` bytes into
the output buffer, and when the text of the row with its terminator does not fit it stores
what a failure stores, a lone terminator at `result[0]` (nothing when `resultSize <= 0`), and
no part of the text. For `ExcelHandler.cpp` this holds with or without an output buffer
(`result` null or not). For `Source.cpp` it holds for every call that has an output buffer,
and such a call returns; a call with a null `result` is covered for `resultSize <= 0`, where
it returns having stored nothing. -/
theorem ReadRow_buffer_bound (fs : FileSystem) (filename sheetName : Option Str) (row : Int)
    (result : Bool) (resultSize : Int)
    (hlen : ∀ path name wb ws, filename = some path → sheetName = some name →
      fs path = some wb → wb.sheet_by_title name = some ws →
      (ExcelHandler.rowText ws row).length + 1 < 2 ^ 31 ∧
        (Source.rowText ws row).length + 1 < 2 ^ 31) :
    ((resultSize ≤ 0 →
        (ExcelHandler.ReadRow fs filename sheetName row result resultSize).2 = []) ∧
      (((ExcelHandler.ReadRow fs filename sheetName row result resultSize).2.length : Int)
        ≤ max resultSize 0) ∧
      (∀ path name wb ws, filename = some path → sheetName = some name →
        fs path = some wb → wb.sheet_by_title name = some ws →
        ((ExcelHandler.rowText ws row).length : Int) + 1 > resultSize →
        (ExcelHandler.ReadRow fs filename sheetName row result resultSize).2
          = if result = true ∧ 0 < resultSize then [NUL] else [])) ∧
    ((resultSize ≤ 0 →
        Source.ReadRow fs filename sheetName row result resultSize = some (fs, [])) ∧
      (∃ out, Source.ReadRow fs filename sheetName row true resultSize = some (fs, out) ∧
        ((out.length : Int) ≤ max resultSize 0) ∧
        (∀ path name wb ws, filename = some path → sheetName = some name →
          fs path = some wb → wb.sheet_by_title name = some ws →
          ((Source.rowText ws row).length : Int) + 1 > resultSize →
          out = if 0 < resultSize then [NUL] else []))) := by
  have hempty : emptyResult result resultSize
      = if result = true ∧ 0 < resultSize then [NUL] else [] := by
    unfold emptyResult
    simp
  have hempty' : emptyResult true resultSize = if 0 < resultSize then [NUL] else [] := by
    unfold emptyResult
    simp
  constructor
  · rcases ExcelHandler.ReadRow_stores fs filename sheetName row result resultSize with
      h | ⟨path, name, wb, ws, h1, h2, h3, h4, h5, h6⟩
    · rw [h]
      refine ⟨emptyResult_nonpos result resultSize, emptyResult_length result resultSize, ?_⟩
      intro _ _ _ _ _ _ _ _ _
      exact hempty
    · have hb := (hlen path name wb ws h1 h2 h3 h4).1
      rw [toInt32_of_lt _ hb] at h5
      push_cast at h5
      rw [h6]
      refine ⟨fun hle => by omega, ?_, ?_⟩
      · simp only [List.length_append, List.length_singleton]
        push_cast
        omega
      · intro path' name' wb' ws' e1 e2 e3 e4 hbig
        rw [h1] at e1
        rw [h2] at e2
        cases e1
        cases e2
        rw [h3] at e3
        cases e3
        rw [h4] at e4
        cases e4
        omega
  · obtain ⟨out, hout, hcase⟩ := Source.ReadRow_stores_src fs filename sheetName row resultSize
    have hfit : ∀ path name wb ws, filename = some path → sheetName = some name →
        fs path = some wb → wb.sheet_by_title name = some ws →
        ¬ (toInt32 ((Source.rowText ws row).length + 1) > resultSize) →
        ((Source.rowText ws row).length : Int) + 1 ≤ resultSize := by
      intro path name wb ws h1 h2 h3 h4 h5
      have hb := (hlen path name wb ws h1 h2 h3 h4).2
      rw [toInt32_of_lt _ hb] at h5
      push_cast at h5
      omega
    constructor
    · intro hle
      cases result with
      | false =>
        rw [Source.ReadRow_null_src, if_neg (by omega)]
      | true =>
        rw [hout]
        rcases hcase with h | ⟨path, name, wb, ws, h1, h2, h3, h4, h5, _⟩
        · rw [h, emptyResult_nonpos true resultSize hle]
        · have := hfit path name wb ws h1 h2 h3 h4 h5
          omega
    · refine ⟨out, hout, ?_, ?_⟩
      · rcases hcase with h | ⟨path, name, wb, ws, h1, h2, h3, h4, h5, h6⟩
        · rw [h]
          exact emptyResult_length true resultSize
        · have := hfit path name wb ws h1 h2 h3 h4 h5
          rw [h6]
          simp only [List.length_append, List.length_singleton]
          push_cast
          omega
      · intro path' name' wb' ws' e1 e2 e3 e4 hbig
        rcases hcase with h | ⟨path, name, wb, ws, h1, h2, h3, h4, h5, _⟩
        · rw [h]
          exact hempty'
        · have := hfit path name wb ws h1 h2 h3 h4 h5
          rw [h1] at e1
          rw [h2] at e2
          cases e1
          cases e2
          rw [h3] at e3
          cases e3
          rw [h4] at e4
          cases e4
          omega

theorem oneFile_found (ws0 : worksheet) (path name : Str) (wb : workbook) (ws : worksheet)
    (h1 : oneFile ws0 path = some wb) (h2 : wb.sheet_by_title name = some ws) : ws = ws0 := by
  unfold oneFile FileSystem.save noFiles at h1
  split at h1
  · simp only [Option.some.injEq] at h1
    subst h1
    have := sheet_by_title_mem _ _ _ h2
    simpa using this
  · cases h1

/-- Claim C6, witness: a buffer of 3 bytes is too small for the row `a,,c`; both
implementations store a lone terminator. -/
theorem ReadRow_buffer_bound_witness :
    (∀ path name wb ws, some ['f'] = some path → some ['s'] = some name →
      oneFile sheetGapRow path = some wb → wb.sheet_by_title name = some ws →
      (ExcelHandler.rowText ws 1).length + 1 < 2 ^ 31 ∧
        (Source.rowText ws 1).length + 1 < 2 ^ 31) ∧
    (ExcelHandler.ReadRow (oneFile sheetGapRow) (some ['f']) (some ['s']) 1 true 3).2 = [NUL] ∧
    (Source.ReadRow (oneFile sheetGapRow) (some ['f']) (some ['s']) 1 true 3).map Prod.snd
      = some [NUL] :=
  have hlen : ∀ path name wb ws, some ['f'] = some path → some ['s'] = some name →
      oneFile sheetGapRow path = some wb → wb.sheet_by_title name = some ws →
      (ExcelHandler.rowText ws 1).length + 1 < 2 ^ 31 ∧
        (Source.rowText ws 1).length + 1 < 2 ^ 31 := by
    intro path name wb ws _ _ h1 h2
    rw [oneFile_found sheetGapRow path name wb ws h1 h2]
    decide
  ⟨hlen,
    ((ReadRow_buffer_bound (oneFile sheetGapRow) (some ['f']) (some ['s']) 1 true 3 hlen).1.2.2
      ['f'] ['s'] { sheets := [sheetGapRow] } sheetGapRow rfl rfl (by decide) (by decide)
      (by decide)).trans (by decide),
    match (ReadRow_buffer_bound (oneFile sheetGapRow) (some ['f']) (some ['s']) 1 true 3
      hlen).2.2 with
    | ⟨out, h1, _, h3⟩ =>
      (congrArg (Option.map Prod.snd) h1).trans
        (congrArg some
          ((h3 ['f'] ['s'] { sheets := [sheetGapRow] } sheetGapRow rfl rfl (by decide)
            (by decide) (by decide)).trans (by decide)))⟩

/-- Claim C5, counterexample: on a sheet whose only cell is B1, `ReadRowCount` is 0, so row 1
is above the count, yet `ReadRow` of row 1 stores the text `,b` and not the empty string. -/
theorem ReadRow_degenerate_counterexample :
    ExcelHandler.ReadRowCount (oneFile sheetOnlyB1) (some ['f']) (some ['s']) = 0 ∧
    (ExcelHandler.ReadRow (oneFile sheetOnlyB1) (some ['f']) (some ['s']) 1 true 16).2
      = [',', 'b', NUL] ∧
    (ExcelHandler.ReadRow (oneFile sheetOnlyB1) (some ['f']) (some ['s']) 1 true 16).2
      ≠ [NUL] := by
  decide

/-- Claim C5, amended: for a document that loads, a sheet that exists and a row number below 1
or above `ReadRowCount`, `ReadRow` with `resultSize > 0` stores the empty string and leaves the
file system as it is, provided that, when the row number is 1, no cell of row 1 in a column
from 2 on holds a value. -/
theorem ReadRow_out_of_range (fs : FileSystem) (path name : Str) (wb : workbook)
    (ws : worksheet) (hfs : fs path = some wb) (hws : wb.sheet_by_title name = some ws)
    (rowNumber resultSize : Int) (hsize : 0 < resultSize)
    (hout : rowNumber < 1 ∨ rowNumber > ExcelHandler.ReadRowCount fs (some path) (some name))
    (hrow1 : rowNumber = 1 → ∀ c, 2 ≤ c → ws.has_value { column := c, row := 1 } = false) :
    ExcelHandler.ReadRow fs (some path) (some name) rowNumber true resultSize = (fs, [NUL]) := by
  rw [ExcelHandler.ReadRow_found fs path name wb ws hfs hws]
  rw [ExcelHandler.ReadRowCount_found fs path name wb ws hfs hws] at hout
  congr 1
  by_cases h1 : rowNumber < 1 ∨ rowNumber > toInt32 ws.highest_row
  · rw [if_pos h1]
    exact emptyResult_pos resultSize hsize
  · rw [if_neg h1]
    by_cases hd : ((ws.to_string A1).isEmpty && ws.highest_row == 1) = true
    · simp only [Bool.and_eq_true, List.isEmpty_iff, beq_iff_eq] at hd
      obtain ⟨hA1, hh⟩ := hd
      have h31 : toInt32 1 = 1 := toInt32_of_lt 1 (by decide)
      rw [hh, h31] at h1
      have hr : rowNumber = 1 := by omega
      subst hr
      have hno := hrow1 rfl
      have hnat : (1 : Int).toNat = 1 := rfl
      obtain ⟨_, hL2, _⟩ := ExcelHandler.lastColumnWithData_spec ws 1 ws.highest_column
      by_cases hL : ExcelHandler.lastColumnWithData ws 1 ws.highest_column = 0
      · rw [hnat, if_pos hL]
        exact emptyResult_pos resultSize hsize
      · have hv := hL2 hL
        have hone : ExcelHandler.lastColumnWithData ws 1 ws.highest_column = 1 := by
          by_contra hne
          have := hno _ (by omega : 2 ≤ ExcelHandler.lastColumnWithData ws 1 ws.highest_column)
          rw [this] at hv
          cases hv
        have htext : ExcelHandler.rowText ws 1 = [] := by
          unfold ExcelHandler.rowText
          rw [hnat, hone, ExcelHandler.rowData_succ ws 1 0]
          have h0 : ExcelHandler.rowData ws 1 0 = [] := rfl
          rw [if_neg (by omega), h0]
          exact hA1
        rw [hnat, if_neg hL, htext]
        have hfit : ¬ (toInt32 (([] : Str).length + 1) > resultSize) := by
          simp only [List.length_nil, Nat.zero_add, h31, Nat.cast_one]
          omega
        rw [if_neg hfit]
        rfl
    · rw [if_neg hd] at hout
      exact absurd hout h1

/-- Claim C5, witness: row 3 of a sheet with two rows is read as the empty string. -/
theorem ReadRow_out_of_range_witness :
    ((0 : Int) < 16 ∧
      ((3 : Int) < 1 ∨
        (3 : Int) > ExcelHandler.ReadRowCount (oneFile sheetTwoRows) (some ['f']) (some ['s']))) ∧
    ExcelHandler.ReadRow (oneFile sheetTwoRows) (some ['f']) (some ['s']) 3 true 16
      = (oneFile sheetTwoRows, [NUL]) :=
  ⟨by decide,
    ReadRow_out_of_range (oneFile sheetTwoRows) ['f'] ['s'] { sheets := [sheetTwoRows] }
      sheetTwoRows (by decide) (by decide) 3 16 (by decide) (by decide)
      (fun h => absurd h (by decide))⟩

/-- Claim C10: after a successful `WriteToXlsx` of a record whose split yields the fields
`f_0 .. f_(n-1)`, with `r` the row cursor of the sheet as it was before the call (a sheet with no
cells when it did not exist), the sheet of the given name holds `f_i` at (column `i + 1`, row
`r`) for every `i < n`; every other cell of that sheet holds what it held, every other sheet of
the document is as it was, and so is every other file. -/
theorem WriteToXlsx_postcondition (fs fs' : FileSystem) (path name data : Str)
    (hok : ExcelHandler.WriteToXlsx fs (some path) (some name) (some data) = (true, fs')) :
    ∃ wb' ws', fs' path = some wb' ∧ wb'.sheet_by_title name = some ws' ∧
      (∀ i f, (SplitString data)[i]? = some f →
        ws'.value
          { column := i + 1,
            row := ExcelHandler.startRow (targetSheet (loadOrNew fs path) name) } = some f) ∧
      (∀ ref : cell_reference,
        ¬ (ref.row = ExcelHandler.startRow (targetSheet (loadOrNew fs path) name) ∧
            1 ≤ ref.column ∧ ref.column ≤ (SplitString data).length) →
        ws'.value ref = (targetSheet (loadOrNew fs path) name).value ref) ∧
      (∀ t, t ≠ name → wb'.sheet_by_title t = (loadOrNew fs path).sheet_by_title t) ∧
      (∀ p, p ≠ path → fs' p = fs p) := by
  cases hw : ExcelHandler.writeFields
      (ExcelHandler.startRow (targetSheet (loadOrNew fs path) name)) 0 (SplitString data)
      ((targetSheet (loadOrNew fs path) name).cell A1) with
  | none =>
    rw [ExcelHandler.WriteToXlsx_eq, hw] at hok
    cases hok
  | some ws1 =>
    obtain ⟨h1, h2, h3, h4, h5, _, _⟩ :=
      WriteToXlsx_of_writeFields fs path name data _ ws1 rfl hw
    rw [h1] at hok
    have hfs : fs' = fs.save path ((withSheet (loadOrNew fs path) name).update ws1) :=
      (congrArg Prod.snd hok).symm
    subst hfs
    refine ⟨_, ws1, save_same _ _ _, h2, ?_, ?_, h3, fun p hp => save_other _ _ _ _ hp⟩
    · intro i f hf
      have hi : i < (SplitString data).length := by
        by_contra hge
        rw [List.getElem?_eq_none (by omega)] at hf
        cases hf
      rw [h5, if_pos ⟨rfl, by simp, by simpa using hi⟩]
      simpa using hf
    · intro ref hnot
      rw [h5, if_neg]
      intro x
      exact hnot ⟨x.1, x.2.1, x.2.2⟩

/-- Claim C10, witness: writing `x,y` to a sheet with two rows puts `x` in A3 and `y` in B3
and leaves A1 as it was. -/
theorem WriteToXlsx_postcondition_witness :
    (ExcelHandler.WriteToXlsx (oneFile sheetTwoRows) (some ['f']) (some ['s'])
        (some ['x', ',', 'y'])).1 = true ∧
    ∃ wb' ws',
      (ExcelHandler.WriteToXlsx (oneFile sheetTwoRows) (some ['f']) (some ['s'])
        (some ['x', ',', 'y'])).2 ['f'] = some wb' ∧
      wb'.sheet_by_title ['s'] = some ws' ∧
      ws'.value { column := 1, row := 3 } = some ['x'] ∧
      ws'.value { column := 2, row := 3 } = some ['y'] ∧
      ws'.value { column := 1, row := 1 } = some ['a'] :=
  ⟨by decide,
    match WriteToXlsx_postcondition (oneFile sheetTwoRows)
      (ExcelHandler.WriteToXlsx (oneFile sheetTwoRows) (some ['f']) (some ['s'])
        (some ['x', ',', 'y'])).2 ['f'] ['s'] ['x', ',', 'y'] (Prod.ext (by decide) rfl) with
    | ⟨wb', ws', h1, h2, h3, h4, _, _⟩ =>
      ⟨wb', ws', h1, h2, h3 0 ['x'] (by decide), h3 1 ['y'] (by decide),
        (h4 { column := 1, row := 1 } (by decide)).trans (by decide)⟩⟩

/-- Claim C2: a record made of one or more fields, each non-empty and without a comma, that
is written to a sheet with no cells (or a sheet or document yet to be created) and read back
from row 1 into a buffer of at least `len(record) + 1` bytes comes back as the record followed
by the terminator. -/
theorem WriteToXlsx_ReadRow_roundtrip (fs : FileSystem) (path name : Str) (fields : List Str)
    (resultSize : Int)
    (hempty : (targetSheet (loadOrNew fs path) name).cell_map = [])
    (hfields : fields ≠ []) (hf : ∀ f ∈ fields, f ≠ [] ∧ SEP ∉ f)
    (hsize : ((joinFields fields).length : Int) + 1 ≤ resultSize)
    (hint : resultSize < 2 ^ 31) :
    (ExcelHandler.ReadRow
        (ExcelHandler.WriteToXlsx fs (some path) (some name) (some (joinFields fields))).2
        (some path) (some name) 1 true resultSize).2
      = joinFields fields ++ [NUL] := by
  have hsplit : SplitString (joinFields fields) = fields := by
    rw [SplitString_eq_fieldsOf]
    exact fieldsOf_joinFields fields hfields hf
  have hne : joinFields fields ≠ [] := by
    intro h
    rw [h] at hsplit
    exact hfields hsplit.symm
  have hlen : fields.length ≤ (joinFields fields).length + 1 := by
    have h1 := fieldsOf_length (joinFields fields)
    rw [← SplitString_eq_fieldsOf, hsplit] at h1
    have h2 : separators (joinFields fields) ≤ (joinFields fields).length :=
      List.count_le_length _ _
    rw [h1]
    split <;> omega
  have hn : (SplitString (joinFields fields)).length < 2 ^ 32 := by
    rw [hsplit]
    have h3 : ((joinFields fields).length : Int) + 1 < 2 ^ 31 := lt_of_le_of_lt hsize hint
    have h4 : (joinFields fields).length + 1 < 2 ^ 31 := by exact_mod_cast h3
    exact lt_of_le_of_lt hlen (lt_trans h4 (by decide))
  have := ReadRow_after_first_write fs path name (joinFields fields) hempty hne hn resultSize
    (by rw [hsplit]; exact hsize)
  rw [hsplit] at this
  exact this

/-- Claim C2, witness: `a,b,c` written to a new document is read back as `a,b,c`. -/
theorem WriteToXlsx_ReadRow_roundtrip_witness :
    (ExcelHandler.ReadRow
        (ExcelHandler.WriteToXlsx noFiles (some ['f']) (some ['s'])
          (some ['a', ',', 'b', ',', 'c'])).2
        (some ['f']) (some ['s']) 1 true 6).2
      = ['a', ',', 'b', ',', 'c', NUL] :=
  WriteToXlsx_ReadRow_roundtrip noFiles ['f'] ['s'] [['a'], ['b'], ['c']] 6
    (by decide) (by decide) (by decide) (by decide) (by decide)

/-- Claim C3, counterexample: the record `x,,` written to a new sheet is read back as `x,`,
one field short. -/
theorem trailing_fields_counterexample :
    (ExcelHandler.ReadRow
        (ExcelHandler.WriteToXlsx noFiles (some ['f']) (some ['s']) (some ['x', ',', ','])).2
        (some ['f']) (some ['s']) 1 true 16).2 = ['x', ',', NUL] ∧
    (ExcelHandler.ReadRow
        (ExcelHandler.WriteToXlsx noFiles (some ['f']) (some ['s']) (some ['x', ',', ','])).2
        (some ['f']) (some ['s']) 1 true 16).2 ≠ ['x', ',', ',', NUL] := by
  decide

/-- Claim C3, amended: a record that ends in a comma, written to a sheet with no cells and
read back from row 1 with a buffer that has room for it, comes back without its last comma:
`x,,` comes back as `x,`, and the text read back has one comma, hence one field, less than
the record. -/
theorem trailing_separator_dropped (fs : FileSystem) (path name data : Str) (resultSize : Int)
    (hempty : (targetSheet (loadOrNew fs path) name).cell_map = [])
    (hne : data ≠ []) (hends : endsInField data = false)
    (hsize : (data.length : Int) + 1 ≤ resultSize) (hint : resultSize < 2 ^ 31) :
    (ExcelHandler.ReadRow
        (ExcelHandler.WriteToXlsx fs (some path) (some name) (some data)).2
        (some path) (some name) 1 true resultSize).2
      = data.dropLast ++ [NUL] ∧
    separators data.dropLast + 1 = separators data := by
  have hjoin : joinFields (SplitString data) = data.dropLast := by
    rw [SplitString_eq_fieldsOf, joinFields_fieldsOf, hends]
    rfl
  have hlen : (SplitString data).length ≤ data.length := by
    rw [SplitString_eq_fieldsOf, fieldsOf_length, hends]
    exact List.count_le_length _ _
  have hn : (SplitString data).length < 2 ^ 32 := by
    have h3 : (data.length : Int) + 1 < 2 ^ 31 := lt_of_le_of_lt hsize hint
    have h4 : data.length + 1 < 2 ^ 31 := by exact_mod_cast h3
    exact lt_of_le_of_lt hlen (lt_trans (Nat.lt_succ_self _) (lt_trans h4 (by decide)))
  have hdl : ((data.dropLast).length : Int) + 1 ≤ resultSize := by
    have h5 : (data.dropLast).length ≤ data.length := by
      rw [List.length_dropLast]
      exact Nat.sub_le _ _
    have h6 : ((data.dropLast).length : Int) ≤ (data.length : Int) := by exact_mod_cast h5
    exact le_trans (add_le_add_right h6 1) hsize
  have := ReadRow_after_first_write fs path name data hempty hne hn resultSize
    (by rw [hjoin]; exact hdl)
  rw [hjoin] at this
  exact ⟨this, separators_dropLast data hne hends⟩

/-- Claim C3, witness: `x,,` written to a new document is read back as `x,`. -/
theorem trailing_separator_dropped_witness :
    (ExcelHandler.ReadRow
        (ExcelHandler.WriteToXlsx noFiles (some ['f']) (some ['s']) (some ['x', ',', ','])).2
        (some ['f']) (some ['s']) 1 true 4).2 = ['x', ',', NUL] :=
  (trailing_separator_dropped noFiles ['f'] ['s'] ['x', ',', ','] 4
    (by decide) (by decide) (by decide) (by decide) (by decide)).1

/-- Claim C1, counterexample: after the two records `,b` and `c,d` are written to a new
sheet, `ReadRowCount` is 1 and not 2, the second record having gone to row 1 as well; after the
record `,b` alone it is 0; and after the record `a` and then the empty record it is 1. -/
theorem append_only_counterexample :
    ExcelHandler.ReadRowCount
      (ExcelHandler.writeAll noFiles ['f'] ['s'] [[',', 'b'], ['c', ',', 'd']])
      (some ['f']) (some ['s']) = 1 ∧
    ExcelHandler.ReadRowCount
      (ExcelHandler.writeAll noFiles ['f'] ['s'] [[',', 'b'], ['c', ',', 'd']])
      (some ['f']) (some ['s']) ≠ 2 ∧
    ExcelHandler.ReadRowCount
      (ExcelHandler.writeAll noFiles ['f'] ['s'] [[',', 'b']])
      (some ['f']) (some ['s']) = 0 ∧
    ExcelHandler.ReadRowCount
      (ExcelHandler.writeAll noFiles ['f'] ['s'] [['a'], []])
      (some ['f']) (some ['s']) = 1 := by
  decide

/-- Claim C1, amended: for `k >= 1` records (`k < 2^31`), none of them empty, each of fewer
than 2^32 fields, the first not beginning with a comma, calling `WriteToXlsx` once for each in
order on a sheet with no cells makes `ReadRowCount` return `k`, and field `j` (0-based) of the
`i`-th record (0-based) is held at column `j + 1` of row `i + 1`. -/
theorem WriteToXlsx_append_only (fs : FileSystem) (path name : Str) (records : List Str)
    (hempty : (targetSheet (loadOrNew fs path) name).cell_map = [])
    (hk : 1 ≤ records.length) (hlt : records.length < 2 ^ 31)
    (hrec : ∀ data ∈ records, data ≠ [] ∧ (SplitString data).length < 2 ^ 32)
    (hfirst : ∀ data, records.head? = some data → data.head? ≠ some SEP) :
    ExcelHandler.ReadRowCount (ExcelHandler.writeAll fs path name records)
        (some path) (some name) = records.length ∧
    ∃ wb ws, ExcelHandler.writeAll fs path name records path = some wb ∧
      wb.sheet_by_title name = some ws ∧
      ∀ i data, records[i]? = some data → ∀ j f, (SplitString data)[j]? = some f →
        ws.value { column := j + 1, row := i + 1 } = some f := by
  cases records with
  | nil => simp at hk
  | cons data rest =>
    have hd := hrec data (List.mem_cons_self _ _)
    have h1 := written_first fs path name data hempty hd.1 (hfirst data rfl) hd.2
    rw [List.length_cons] at hlt
    have h2 := written_writeAll path name rest _ [data] h1
      (by rw [List.length_singleton]; omega)
      (fun x hx => hrec x (List.mem_cons_of_mem _ hx))
    obtain ⟨wb, ws, hfs, hws, hrow, hA1, hold⟩ := h2
    have hfs' : ExcelHandler.writeAll fs path name (data :: rest) path = some wb := hfs
    refine ⟨?_, wb, ws, hfs', hws, hold⟩
    rw [ExcelHandler.ReadRowCount_found _ path name wb ws hfs' hws, if_neg, hrow,
      toInt32_of_lt]
    · rfl
    · simp only [List.singleton_append, List.length_cons]
      omega
    · intro x
      simp only [Bool.and_eq_true, List.isEmpty_iff, beq_iff_eq] at x
      exact hA1 x.1

/-- Claim C1, witness: the records `a,b` and `c` written to a new document give a count of 2,
with `a`, `b` on row 1 and `c` on row 2. -/
theorem WriteToXlsx_append_only_witness :
    ExcelHandler.ReadRowCount
      (ExcelHandler.writeAll noFiles ['f'] ['s'] [['a', ',', 'b'], ['c']])
      (some ['f']) (some ['s']) = 2 :=
  (WriteToXlsx_append_only noFiles ['f'] ['s'] [['a', ',', 'b'], ['c']]
    (by decide) (by decide) (by decide) (by decide)
    (fun data h => by
      have e : data = ['a', ',', 'b'] := (Option.some.inj h).symm
      rw [e]
      decide)).1

/-- Claim C11, the code at the failing input: the write loops of the two files store every
field at the same cell, field `i` at (column `i + 1`, row `r`), whatever the record, the row
cursor and the sheet. Writing `x,y` to a sheet with two rows, where both files take row 3 as
the row cursor, the two files leave the same sheet: `x` in A3 and `y` in B3, and no value in
A4, the cell a write down column 1 would have put `y` in. -/
theorem write_orientation_evaluation :
    (∀ (startRow i : Nat) (fields : List Str) (ws : worksheet),
      ExcelHandler.writeFields startRow i fields ws = Source.writeFields startRow i fields ws) ∧
    sheetAt (ExcelHandler.WriteToXlsx (oneFile sheetTwoRows) (some ['f']) (some ['s'])
        (some ['x', ',', 'y'])).2 ['f'] ['s']
      = sheetAt (Source.WriteToXlsx (oneFile sheetTwoRows) (some ['f']) (some ['s'])
        (some ['x', ',', 'y'])).2 ['f'] ['s'] ∧
    cellAt (ExcelHandler.WriteToXlsx (oneFile sheetTwoRows) (some ['f']) (some ['s'])
        (some ['x', ',', 'y'])).2 ['f'] ['s'] { column := 1, row := 3 } = some ['x'] ∧
    cellAt (ExcelHandler.WriteToXlsx (oneFile sheetTwoRows) (some ['f']) (some ['s'])
        (some ['x', ',', 'y'])).2 ['f'] ['s'] { column := 2, row := 3 } = some ['y'] ∧
    cellAt (ExcelHandler.WriteToXlsx (oneFile sheetTwoRows) (some ['f']) (some ['s'])
        (some ['x', ',', 'y'])).2 ['f'] ['s'] { column := 1, row := 4 } = none := by
  refine ⟨?_, by decide, by decide, by decide, by decide⟩
  intro startRow i fields
  induction fields generalizing i with
  | nil => intro ws; rfl
  | cons f rest ih =>
    intro ws
    unfold ExcelHandler.writeFields Source.writeFields
    rw [Nat.add_comm 1 i]
    cases cell_reference.make (toUInt32 (i + 1)) startRow with
    | none => rfl
    | some ref => exact ih (i + 1) (ws.set_value ref f)
